import Mathlib

/-!
A verification development for the i1 host-integrity and threat-intelligence
plane.  The Rust sources of the `i1-audit` and `i1-srv` crates are shallowly
embedded: strings are modelled as `List Char` (`Str`), bytes as `Nat` below
256, machine integers as `Nat` with explicit bounds, and fallible functions
return `Except SrvError` or `Option`.  All definitions are executable, so
concrete runs of the embedded code can be checked with `decide`.

Modelling conventions, noted once here:
* Rust `str` values are UTF-8; the embedding works with their character
  lists.  Byte-lexicographic comparison of UTF-8 strings agrees with
  lexicographic comparison of their scalar-value sequences, so the order on
  `List Char` coincides with the order `sort_unstable` uses on `&str`.
* `sort_unstable` produces the unique ascending reordering of a list for a
  total antisymmetric order, so it is embedded as `List.insertionSort`,
  which provably produces that same list.
* `hickory` DNS names are kept as plain strings; `Name::parse` validation
  of label syntax is not modelled (every name the zone builder forms from
  country codes, reversed IPv4 addresses and AS numbers parses in hickory).
-/

set_option maxRecDepth 100000

/-- Decidable equality for `Except`, used to evaluate embedded fallible
functions on concrete inputs. -/
instance {e a : Type} [DecidableEq e] [DecidableEq a] : DecidableEq (Except e a) := fun
  | .error x, .error y => decidable_of_iff (x = y) (by simp)
  | .error _, .ok _ => isFalse (by simp)
  | .ok _, .error _ => isFalse (by simp)
  | .ok x, .ok y => decidable_of_iff (x = y) (by simp)

/-- Rust strings, embedded as their character lists. -/
abbrev Str := List Char

/-- Decimal digit character test (ASCII `0`..`9`), as in Rust. -/
def isDigitB (c : Char) : Bool := 48 ≤ c.toNat && c.toNat ≤ 57

/-- Numeric value of a decimal digit character. -/
def digitVal (c : Char) : Nat := c.toNat - 48

/-- Value of a decimal digit string (most significant digit first). -/
def digitsVal (s : Str) : Nat := s.foldl (fun a c => 10 * a + digitVal c) 0

/-- The character for a decimal digit below ten. -/
def digitChar (n : Nat) : Char := Char.ofNat (48 + n)

/-- Decimal digits of `n`, most significant first; fuel-driven so that it is
structural and evaluates inside the kernel.  `natReprFuel (n+1) n` is the
embedding of Rust's `Display` for unsigned integers. -/
def natReprFuel : Nat → Nat → List Char
  | 0, _ => []
  | fuel + 1, n =>
    if n < 10 then [digitChar n]
    else natReprFuel fuel (n / 10) ++ [digitChar (n % 10)]

/-- Decimal representation of a natural number, as Rust's `to_string`. -/
def natRepr (n : Nat) : Str := natReprFuel (n + 1) n

/-- Rust's `str::split(c)`: split at every occurrence of `c`, keeping empty
segments; the empty string yields one empty segment. -/
def splitOnChar (c : Char) : Str → List Str
  | [] => [[]]
  | x :: xs =>
    if x = c then [] :: splitOnChar c xs
    else
      match splitOnChar c xs with
      | [] => [[x]]
      | y :: ys => (x :: y) :: ys

/-- Interleave a separator character between segments; the left inverse of
`splitOnChar`. -/
def joinChar (c : Char) : List Str → Str
  | [] => []
  | [x] => x
  | x :: y :: rest => x ++ c :: joinChar c (y :: rest)

/-- Rust's `str::split_once('=')`: split at the first `=`, if any. -/
def splitOnceEq : Str → Option (Str × Str)
  | [] => none
  | c :: cs =>
    if c = '=' then some ([], cs)
    else
      match splitOnceEq cs with
      | none => none
      | some (k, v) => some (c :: k, v)

/-- Rust's `str::strip_suffix(suf)`: remove `suf` from the end, if present. -/
def dropSuffix (s suf : Str) : Option Str :=
  if suf.isSuffixOf s then some (s.take (s.length - suf.length)) else none

/-- Longest prefix of decimal digits together with the rest. -/
def takeDigitsAll : Str → (Str × Str)
  | [] => ([], [])
  | c :: cs =>
    if isDigitB c then
      let p := takeDigitsAll cs
      (c :: p.1, p.2)
    else ([], c :: cs)

/-- Longest prefix of at most `w` decimal digits together with the rest;
this is how chrono scans fixed-width numeric fields. -/
def takeDigitsMax : Nat → Str → (Str × Str)
  | 0, s => ([], s)
  | _ + 1, [] => ([], [])
  | w + 1, c :: cs =>
    if isDigitB c then
      let p := takeDigitsMax w cs
      (c :: p.1, p.2)
    else ([], c :: cs)

namespace Sha256

/-!
SHA-256 over byte lists, embedding the `ring::digest` / `sha2` primitive the
sources call.  Words are `Nat` kept below `2 ^ 32` by explicit reduction.
-/

/-- The modulus for 32-bit words. -/
def M32 : Nat := 4294967296

/-- 32-bit modular addition. -/
def add32 (a b : Nat) : Nat := (a + b) % M32

/-- Right rotation of a 32-bit word by `n`. -/
def rotr (n x : Nat) : Nat := ((x >>> n) ||| (x <<< (32 - n))) % M32

/-- SHA-256 big Σ₀. -/
def bigSigma0 (x : Nat) : Nat := (rotr 2 x ^^^ rotr 13 x) ^^^ rotr 22 x

/-- SHA-256 big Σ₁. -/
def bigSigma1 (x : Nat) : Nat := (rotr 6 x ^^^ rotr 11 x) ^^^ rotr 25 x

/-- SHA-256 small σ₀. -/
def smallSigma0 (x : Nat) : Nat := (rotr 7 x ^^^ rotr 18 x) ^^^ (x >>> 3)

/-- SHA-256 small σ₁. -/
def smallSigma1 (x : Nat) : Nat := (rotr 17 x ^^^ rotr 19 x) ^^^ (x >>> 10)

/-- SHA-256 choose function. -/
def ch (x y z : Nat) : Nat := (x &&& y) ^^^ ((x ^^^ 4294967295) &&& z)

/-- SHA-256 majority function. -/
def maj (x y z : Nat) : Nat := ((x &&& y) ^^^ (x &&& z)) ^^^ (y &&& z)

/-- The 64 SHA-256 round constants. -/
def K : List Nat := [1116352408, 1899447441, 3049323471, 3921009573, 961987163, 1508970993, 2453635748, 2870763221, 3624381080, 310598401, 607225278, 1426881987, 1925078388, 2162078206, 2614888103, 3248222580, 3835390401, 4022224774, 264347078, 604807628, 770255983, 1249150122, 1555081692, 1996064986, 2554220882, 2821834349, 2952996808, 3210313671, 3336571891, 3584528711, 113926993, 338241895, 666307205, 773529912, 1294757372, 1396182291, 1695183700, 1986661051, 2177026350, 2456956037, 2730485921, 2820302411, 3259730800, 3345764771, 3516065817, 3600352804, 4094571909, 275423344, 430227734, 506948616, 659060556, 883997877, 958139571, 1322822218, 1537002063, 1747873779, 1955562222, 2024104815, 2227730452, 2361852424, 2428436474, 2756734187, 3204031479, 3329325298]

/-- Working state: eight 32-bit words. -/
structure S8 where
  a : Nat
  b : Nat
  c : Nat
  d : Nat
  e : Nat
  f : Nat
  g : Nat
  h : Nat
deriving DecidableEq

/-- The SHA-256 initial hash value. -/
def initState : S8 :=
  ⟨1779033703, 3144134277, 1013904242, 2773480762, 1359893119, 2600822924, 528734635, 1541459225⟩

/-- One compression round, consuming one `(constant, scheduled word)` pair. -/
def round (st : S8) (kw : Nat × Nat) : S8 :=
  let t1 := add32 (add32 (add32 st.h (bigSigma1 st.e)) (add32 (ch st.e st.f st.g) kw.1)) kw.2
  let t2 := add32 (bigSigma0 st.a) (maj st.a st.b st.c)
  ⟨add32 t1 t2, st.a, st.b, st.c, add32 st.d t1, st.e, st.f, st.g⟩

/-- One step of message-schedule extension; the list holds the scheduled
words most-recent-first. -/
def wstep (ws : List Nat) : List Nat :=
  (add32 (add32 (smallSigma1 (ws.getD 1 0)) (ws.getD 6 0))
         (add32 (smallSigma0 (ws.getD 14 0)) (ws.getD 15 0))) :: ws

/-- The full 64-word schedule (in order) from a 16-word block. -/
def mkSchedule (block : List Nat) : List Nat :=
  (wstep^[48] block.reverse).reverse

/-- Compress one 16-word block into the state. -/
def processBlock (st : S8) (block : List Nat) : S8 :=
  let r := (K.zip (mkSchedule block)).foldl round st
  ⟨add32 st.a r.a, add32 st.b r.b, add32 st.c r.c, add32 st.d r.d,
   add32 st.e r.e, add32 st.f r.f, add32 st.g r.g, add32 st.h r.h⟩

/-- Process the padded message, sixteen words at a time. -/
def processWords (st : S8) : List Nat → S8
  | w0 :: w1 :: w2 :: w3 :: w4 :: w5 :: w6 :: w7 ::
    w8 :: w9 :: w10 :: w11 :: w12 :: w13 :: w14 :: w15 :: rest =>
      processWords
        (processBlock st [w0, w1, w2, w3, w4, w5, w6, w7, w8, w9, w10, w11, w12, w13, w14, w15])
        rest
  | _ => st

/-- Big-endian 8-byte encoding of the message length in bits. -/
def be64 (n : Nat) : List Nat :=
  [(n >>> 56) % 256, (n >>> 48) % 256, (n >>> 40) % 256, (n >>> 32) % 256,
   (n >>> 24) % 256, (n >>> 16) % 256, (n >>> 8) % 256, n % 256]

/-- SHA-256 padding: a `0x80` byte, zeros to 56 mod 64, then the bit length. -/
def padMsg (msg : List Nat) : List Nat :=
  msg ++ 128 :: List.replicate ((119 - msg.length % 64) % 64) 0 ++ be64 (8 * msg.length)

/-- Pack bytes into big-endian 32-bit words. -/
def toWords : List Nat → List Nat
  | b0 :: b1 :: b2 :: b3 :: rest => (((b0 * 256 + b1) * 256 + b2) * 256 + b3) :: toWords rest
  | _ => []

/-- Big-endian bytes of one 32-bit word. -/
def wordBytes (w : Nat) : List Nat :=
  [(w >>> 24) % 256, (w >>> 16) % 256, (w >>> 8) % 256, w % 256]

/-- SHA-256 of a byte list, as the list of the 32 digest bytes. -/
def sha256 (msg : List Nat) : List Nat :=
  let st := processWords initState (toWords (padMsg msg))
  wordBytes st.a ++ wordBytes st.b ++ wordBytes st.c ++ wordBytes st.d ++
  wordBytes st.e ++ wordBytes st.f ++ wordBytes st.g ++ wordBytes st.h

/-- Lowercase hexadecimal digit character for a value below 16. -/
def hexDigit (n : Nat) : Char := if n < 10 then Char.ofNat (48 + n) else Char.ofNat (87 + n)

/-- Two lowercase hex characters for one byte. -/
def hexByte (b : Nat) : List Char := [hexDigit ((b / 16) % 16), hexDigit (b % 16)]

/-- Lowercase-hex encoding of a byte list, as `hex::encode`. -/
def hexEncode (bs : List Nat) : Str := bs.flatMap hexByte

/-- Lowercase-hex SHA-256 of a byte list. -/
def sha256Hex (msg : List Nat) : Str := hexEncode (sha256 msg)

end Sha256

/-- UTF-8 encoding of one character (1 to 4 bytes). -/
def utf8Char (c : Char) : List Nat :=
  let n := c.toNat
  if n < 128 then [n]
  else if n < 2048 then [192 + n / 64, 128 + n % 64]
  else if n < 65536 then [224 + n / 4096, 128 + (n / 64) % 64, 128 + n % 64]
  else [240 + n / 262144, 128 + (n / 4096) % 64, 128 + (n / 64) % 64, 128 + n % 64]

/-- UTF-8 bytes of a string, Rust's `str::as_bytes`. -/
def utf8 (s : Str) : List Nat := s.flatMap utf8Char

namespace Audit

/-!
Embedding of `crates/i1-audit`: `encoding/dns_names.rs` and `verify.rs`.
-/

/-- Zone suffix for binary hash lookups (`dns_names.rs`). -/
def BIN_ZONE : Str := "bin.i1.is.".toList

/-- Zone suffix for certificate fingerprint lookups. -/
def CA_ZONE : Str := "ca.i1.is.".toList

/-- Length of the hash prefix used as a DNS label, in hex characters. -/
def hashLabelLen : Nat := 12

/-- Build a DNS query name for a binary hash: the source slices
`&sha256[..HASH_PREFIX_LEN.min(sha256.len())]`, i.e. it truncates to
whatever is available and never fails. -/
def binary_dns_name (sha256 : Str) : Str :=
  sha256.take (min hashLabelLen sha256.length) ++ '.' :: BIN_ZONE

/-- Build a DNS query name for a certificate fingerprint; same slicing. -/
def cert_dns_name (fingerprint : Str) : Str :=
  fingerprint.take (min hashLabelLen fingerprint.length) ++ '.' :: CA_ZONE

/-- Binary record from `types/binary.rs`.  Only the field read by the
verification core is embedded; paths, sizes, timestamps, identities and
float-valued trust scores are never consulted by `compute_trust_digest`. -/
structure BinaryInfo where
  sha256 : Str
deriving DecidableEq

/-- Root-certificate record from `types/cert.rs`, reduced to the one field
`compute_trust_digest` reads. -/
structure RootCertInfo where
  fingerprint : Str
deriving DecidableEq

/-- Audit snapshot from `types/snapshot.rs`, reduced to the fields read by
`compute_trust_digest`: the node id and the two artifact lists. -/
structure AuditSnapshot where
  node_id : Str
  binaries : List BinaryInfo
  root_certs : List RootCertInfo
deriving DecidableEq

/-- Ascending lexicographic sort of a list of strings; the embedding of
`sort_unstable` on `Vec<&str>`. -/
def sortStrs (l : List Str) : List Str := List.insertionSort (· ≤ ·) l

/-- The digest material of `compute_trust_digest` (`verify.rs`): the bytes
accumulated into `material` before hashing.  Note that a `b"|"` delimiter is
appended after the binary hashes but not after the certificate
fingerprints. -/
def digestMaterial (snapshot : AuditSnapshot) : List Nat :=
  let bin_hashes := sortStrs (snapshot.binaries.map (fun b => b.sha256))
  let cert_fps := sortStrs (snapshot.root_certs.map (fun c => c.fingerprint))
  utf8 snapshot.node_id ++ [124]
    ++ utf8 (natRepr bin_hashes.length) ++ [124]
    ++ (bin_hashes.map utf8).flatten ++ [124]
    ++ utf8 (natRepr cert_fps.length) ++ [124]
    ++ (cert_fps.map utf8).flatten

/-- Compute a trust digest from an audit snapshot (`verify.rs`). -/
def compute_trust_digest (snapshot : AuditSnapshot) : Str :=
  Sha256.sha256Hex (digestMaterial snapshot)

/-- The digest material as the specification describes it, for comparison
with the source: both the binary section and the certificate section end
with a `|` delimiter. -/
def digestMaterialSpec (snapshot : AuditSnapshot) : List Nat :=
  let bin_hashes := sortStrs (snapshot.binaries.map (fun b => b.sha256))
  let cert_fps := sortStrs (snapshot.root_certs.map (fun c => c.fingerprint))
  utf8 (snapshot.node_id ++ '|' :: (natRepr bin_hashes.length ++ '|' :: (bin_hashes.flatten
    ++ '|' :: (natRepr cert_fps.length ++ '|' :: (cert_fps.flatten ++ ['|'])))))

/-- Trust digest as described by the specification text. -/
def trust_digest_spec (snapshot : AuditSnapshot) : Str :=
  Sha256.sha256Hex (digestMaterialSpec snapshot)

/-- Expected TTL for signal records, seconds (`verify.rs`). -/
def SIGNAL_TTL : Nat := 60

/-- Maximum acceptable TTL drift, seconds (`verify.rs`). -/
def MAX_TTL_DRIFT : Nat := 10

/-- Verification verdict (`verify.rs`). -/
inductive Verdict
  | Ok
  | NotPublished
  | Tampered
  | StaleCache
  | Compromised
deriving DecidableEq

/-- Result of a TTL verification check (`verify.rs`), with the observed
TXT value and TTL as an optional pair (`None` for NXDOMAIN). -/
structure VerifyResult where
  value_match : Bool
  expected_value : Str
  observed_value : Option Str
  expected_ttl : Nat
  observed_ttl : Option Nat
  ttl_drift : Option Nat
  ttl_ok : Bool
  verdict : Verdict
deriving DecidableEq

/-- Absolute difference of two naturals, the TTL drift. -/
def ttlDrift (observed expected : Nat) : Nat := max observed expected - min observed expected

/-- Modelled from the spec: the function that fills a `VerifyResult` from an
expected TXT value/TTL and an observation is not part of the sources (only
the `VerifyResult` and `Verdict` declarations and the two constants are);
this follows the specification's verdict matrix — matching value with drift
within `MAX_TTL_DRIFT` is `Ok`, matching with larger drift `StaleCache`,
differing value with small drift `Tampered`, differing with large drift
`Compromised`, and an absent record `NotPublished`. -/
def evaluateObservation (expected : Str) (expectedTtl : Nat)
    (observed : Option (Str × Nat)) : VerifyResult :=
  match observed with
  | none =>
    { value_match := false, expected_value := expected, observed_value := none,
      expected_ttl := expectedTtl, observed_ttl := none, ttl_drift := none,
      ttl_ok := false, verdict := Verdict.NotPublished }
  | some (v, ttl) =>
    let drift := ttlDrift ttl expectedTtl
    let ok := drift ≤ MAX_TTL_DRIFT
    let vmatch : Bool := v == expected
    { value_match := vmatch, expected_value := expected, observed_value := some v,
      expected_ttl := expectedTtl, observed_ttl := some ttl, ttl_drift := some drift,
      ttl_ok := ok,
      verdict :=
        if vmatch then (if ok then Verdict.Ok else Verdict.StaleCache)
        else (if ok then Verdict.Tampered else Verdict.Compromised) }

end Audit

namespace Srv

/-!
Embedding of `crates/i1-srv`: `error.rs`, `encoding/dnsbl.rs`,
`encoding/signal.rs`, `encoding/txt_intel.rs`, `authority/ttl_policy.rs`,
`authority/threat_authority.rs` and `authority/zone_builder.rs`.
-/

/-- Error type of the `i1-srv` crate (`error.rs`). -/
inductive SrvError
  | Server (msg : Str)
  | Zone (msg : Str)
  | Encoding (msg : Str)
  | Cbor (msg : Str)
  | Config (msg : Str)
  | State (msg : Str)
  | Identity (msg : Str)
deriving DecidableEq

/-- An IPv4 address as four octets. -/
structure Ipv4 where
  o1 : Nat
  o2 : Nat
  o3 : Nat
  o4 : Nat
deriving DecidableEq

/-- One dotted-decimal octet as Rust's `Ipv4Addr` parser accepts it:
nonempty, at most three digits, no leading zero (except `0` itself), value
at most 255.  The at-most-three-digits bound is implied by the other
conditions. -/
def okOctet (s : Str) : Bool :=
  (!s.isEmpty) && s.all isDigitB
    && (s.length == 1 || s.headD ' ' != '0')
    && digitsVal s ≤ 255

/-- Rust's `"a.b.c.d".parse::<Ipv4Addr>()`: strict dotted-decimal,
four octets, no leading zeros, no surrounding junk. -/
def ipv4Parse (s : Str) : Option Ipv4 :=
  match splitOnChar '.' s with
  | [a, b, c, d] =>
    if okOctet a && okOctet b && okOctet c && okOctet d then
      some ⟨digitsVal a, digitsVal b, digitsVal c, digitsVal d⟩
    else none
  | _ => none

/-- DNSBL return codes (`encoding/dnsbl.rs`). -/
inductive DnsblCode
  | Listed
  | Malicious
  | Suspicious
  | WebScanner
  | BruteForce
  | Community
deriving DecidableEq

/-- The low octet of the `127.0.0.x` response for a code. -/
def DnsblCode.toOctet : DnsblCode → Nat
  | .Listed => 1
  | .Malicious => 2
  | .Suspicious => 3
  | .WebScanner => 4
  | .BruteForce => 5
  | .Community => 10

/-- Convert a code to its `127.0.0.x` response address. -/
def DnsblCode.to_ipv4 (c : DnsblCode) : Ipv4 := ⟨127, 0, 0, c.toOctet⟩

/-- Reverse an IPv4 address for DNSBL lookup: `1.2.3.4` becomes `4.3.2.1`. -/
def reverse_ipv4 (ip : Ipv4) : Str :=
  natRepr ip.o4 ++ '.' :: natRepr ip.o3 ++ '.' :: natRepr ip.o2 ++ '.' :: natRepr ip.o1

/-- Build the full DNSBL query name for an IP under a zone
(`encoding/dnsbl.rs`): parse the IP, reverse it, append the zone. -/
def build_query_name (ip zone : Str) : Except SrvError Str :=
  match ipv4Parse ip with
  | none => .error (SrvError.Encoding ("invalid IPv4 address".toList ++ ip))
  | some addr => .ok (reverse_ipv4 addr ++ '.' :: zone)

/-- Parse a DNSBL query name back into an IP address string
(`encoding/dnsbl.rs`): strip the zone suffix, then a trailing dot, split the
rest on dots, require exactly four labels, and emit them reversed.  The
labels themselves are not inspected further. -/
def parse_query_name (query zone : Str) : Except SrvError Str :=
  match (dropSuffix query zone).bind (fun s => dropSuffix s ['.']) with
  | none => .error (SrvError.Encoding ("query not under zone".toList ++ query))
  | some rev =>
    let octets := splitOnChar '.' rev
    if h : octets.length = 4 then
      .ok (octets[3] ++ '.' :: octets[2] ++ '.' :: octets[1] ++ '.' :: octets[0])
    else
      .error (SrvError.Encoding ("expected 4 octets in reversed IP".toList))

/-- A calendar timestamp in UTC, second precision; the embedding of
chrono's `DateTime<Utc>` as used by the signal record (sub-second precision
is never printed and plays no role here, so it is not carried). -/
structure DT where
  year : Int
  month : Nat
  day : Nat
  hour : Nat
  minute : Nat
  second : Nat
deriving DecidableEq

/-- Proleptic Gregorian leap-year rule. -/
def isLeapYear (y : Int) : Bool := (y % 4 == 0 && y % 100 != 0) || y % 400 == 0

/-- Days in a month of the proleptic Gregorian calendar. -/
def daysInMonth (y : Int) (m : Nat) : Nat :=
  if m = 2 then (if isLeapYear y then 29 else 28)
  else if m = 4 ∨ m = 6 ∨ m = 9 ∨ m = 11 then 30
  else 31

/-- The timestamps representable as a chrono `DateTime<Utc>` at second
precision: a valid proleptic Gregorian date inside `NaiveDate`'s year range
`-262144..=262143`, and a valid time of day (leap seconds aside). -/
def DTValid (t : DT) : Prop :=
  -262144 ≤ t.year ∧ t.year ≤ 262143 ∧
  1 ≤ t.month ∧ t.month ≤ 12 ∧
  1 ≤ t.day ∧ t.day ≤ daysInMonth t.year t.month ∧
  t.hour < 24 ∧ t.minute < 60 ∧ t.second < 60

instance (t : DT) : Decidable (DTValid t) := by
  unfold DTValid
  infer_instance

/-- Truncate a timestamp to minute precision. -/
def truncToMinute (t : DT) : DT := { t with second := 0 }

/-- Zero-pad decimal digits to (at least) two characters, chrono's
`Pad::Zero` for width-2 numeric fields. -/
def pad2 (n : Nat) : Str := if n < 10 then '0' :: natRepr n else natRepr n

/-- Zero-pad decimal digits to at least four characters. -/
def pad4 (n : Nat) : Str := List.replicate (4 - (natRepr n).length) '0' ++ natRepr n

/-- chrono's formatting of `%Y`: years `0..=9999` print zero-padded to four
digits; years outside that range print with an explicit sign (the source
comment reads "non-four-digit years require an explicit sign as per
ISO 8601"). -/
def fmtYear (y : Int) : Str :=
  if 0 ≤ y ∧ y < 10000 then pad4 y.toNat
  else if y < 0 then '-' :: pad4 y.natAbs
  else '+' :: pad4 y.toNat

/-- chrono's formatting of `%Y-%m-%dT%H:%MZ`, the signal timestamp form. -/
def fmtDT (t : DT) : Str :=
  fmtYear t.year ++ '-' :: pad2 t.month ++ '-' :: pad2 t.day
    ++ 'T' :: pad2 t.hour ++ ':' :: pad2 t.minute ++ ['Z']

/-- Parse one fixed-width numeric field of chrono's parser: at least one
and at most `w` digits. -/
def parseNum (w : Nat) (s : Str) : Option (Nat × Str) :=
  let p := takeDigitsMax w s
  if p.1.isEmpty then none else some (digitsVal p.1, p.2)

/-- Expect one literal character. -/
def expectChar (c : Char) : Str → Option Str
  | [] => none
  | x :: xs => if x = c then some xs else none

/-- chrono's scan of `%Y`: with an explicit `+`/`-` sign the digits are
unbounded; without a sign at most four digits are consumed. -/
def parseYearNum (s : Str) : Option (Int × Str) :=
  match s with
  | '-' :: rest =>
    let p := takeDigitsAll rest
    if p.1.isEmpty then none else some (-(digitsVal p.1 : Int), p.2)
  | '+' :: rest =>
    let p := takeDigitsAll rest
    if p.1.isEmpty then none else some ((digitsVal p.1 : Int), p.2)
  | _ =>
    match parseNum 4 s with
    | none => none
    | some (n, rest) => some ((n : Int), rest)

/-- Validate parsed calendar components exactly as chrono's
`Parsed::to_naive_datetime` path does for this format (a missing second
defaults to zero), yielding a `DT` in UTC. -/
def mkValidDT (y : Int) (mo d h mi : Nat) : Option DT :=
  let t : DT := ⟨y, mo, d, h, mi, 0⟩
  if DTValid t then some t else none

/-- chrono's `NaiveDateTime::parse_from_str(s, "%Y-%m-%dT%H:%MZ")`
followed by `and_utc()`: the minute-precision UTC timestamp form.  The
whole input must be consumed.  (chrono also tolerates leading whitespace
before numeric fields; that tolerance is not modelled.) -/
def parseMinuteFormat (s : Str) : Option DT :=
  match parseYearNum s with
  | none => none
  | some (y, s1) =>
    match expectChar '-' s1 with
    | none => none
    | some s2 =>
      match parseNum 2 s2 with
      | none => none
      | some (mo, s3) =>
        match expectChar '-' s3 with
        | none => none
        | some s4 =>
          match parseNum 2 s4 with
          | none => none
          | some (d, s5) =>
            match expectChar 'T' s5 with
            | none => none
            | some s6 =>
              match parseNum 2 s6 with
              | none => none
              | some (h, s7) =>
                match expectChar ':' s7 with
                | none => none
                | some s8 =>
                  match parseNum 2 s8 with
                  | none => none
                  | some (mi, s9) =>
                    match expectChar 'Z' s9 with
                    | none => none
                    | some s10 =>
                      if s10.isEmpty then mkValidDT y mo d h mi else none

/-- Days from the civil epoch 1970-01-01 of a Gregorian date
(the standard civil-calendar conversion, on `Int` with floor division). -/
def daysFromCivil (y : Int) (m d : Nat) : Int :=
  let y2 : Int := if m ≤ 2 then y - 1 else y
  let era : Int := y2.fdiv 400
  let yoe : Nat := (y2 - era * 400).toNat
  let mp : Nat := if 2 < m then m - 3 else m + 9
  let doy : Nat := (153 * mp + 2) / 5 + d - 1
  let doe : Nat := yoe * 365 + yoe / 4 - yoe / 100 + doy
  era * 146097 + (doe : Int) - 719468

/-- Gregorian date from days since 1970-01-01. -/
def civilFromDays (z : Int) : Int × Nat × Nat :=
  let z2 : Int := z + 719468
  let era : Int := z2.fdiv 146097
  let doe : Nat := (z2 - era * 146097).toNat
  let yoe : Nat := (doe - doe / 1460 + doe / 36524 - doe / 146096) / 365
  let doy : Nat := doe - (365 * yoe + yoe / 4 - yoe / 100)
  let mp : Nat := (5 * doy + 2) / 153
  let d : Nat := doy - (153 * mp + 2) / 5 + 1
  let m : Nat := if mp < 10 then mp + 3 else mp - 9
  (era * 400 + (yoe : Int) + (if m ≤ 2 then 1 else 0), m, d)

/-- Seconds since the Unix epoch of a timestamp read in UTC. -/
def toEpochSecs (t : DT) : Int :=
  daysFromCivil t.year t.month t.day * 86400
    + ((t.hour * 3600 + t.minute * 60 + t.second : Nat) : Int)

/-- Timestamp in UTC from seconds since the Unix epoch. -/
def ofEpochSecs (n : Int) : DT :=
  let days : Int := n.fdiv 86400
  let secs : Nat := (n - days * 86400).toNat
  let ymd := civilFromDays days
  ⟨ymd.1, ymd.2.1, ymd.2.2, secs / 3600, (secs / 60) % 60, secs % 60⟩

/-- chrono's `DateTime::parse_from_rfc3339` followed by
`with_timezone(&Utc)`: full date, `T` (or `t`), `HH:MM:SS`, an optional
fractional-second part (discarded here along with leap seconds), and a `Z`
(or `z`) or `±HH:MM` offset which is subtracted to reach UTC. -/
def parseRfc3339 (s : Str) : Option DT :=
  match parseNum 4 s with
  | none => none
  | some (y, s1) =>
    match expectChar '-' s1 with
    | none => none
    | some s2 =>
      match parseNum 2 s2 with
      | none => none
      | some (mo, s3) =>
        match expectChar '-' s3 with
        | none => none
        | some s4 =>
          match parseNum 2 s4 with
          | none => none
          | some (d, s5) =>
            match s5 with
            | 'T' :: s6 => parseRfc3339Time y mo d s6
            | 't' :: s6 => parseRfc3339Time y mo d s6
            | _ => none
where
  /-- Time-of-day, optional fraction, and offset of an RFC-3339 string. -/
  parseRfc3339Time (y : Nat) (mo d : Nat) (s : Str) : Option DT :=
    match parseNum 2 s with
    | none => none
    | some (h, s1) =>
      match expectChar ':' s1 with
      | none => none
      | some s2 =>
        match parseNum 2 s2 with
        | none => none
        | some (mi, s3) =>
          match expectChar ':' s3 with
          | none => none
          | some s4 =>
            match parseNum 2 s4 with
            | none => none
            | some (sec, s5) =>
              let s6 := match s5 with
                | '.' :: rest => (takeDigitsAll rest).2
                | _ => s5
              match parseOffset s6 with
              | none => none
              | some offsetSecs =>
                let t : DT := ⟨(y : Int), mo, d, h, mi, sec⟩
                if DTValid t then some (ofEpochSecs (toEpochSecs t - offsetSecs)) else none
  /-- The RFC-3339 offset: `Z`, `z`, or `±HH:MM`, as seconds east of UTC. -/
  parseOffset : Str → Option Int
    | ['Z'] => some 0
    | ['z'] => some 0
    | c :: rest =>
      if c = '+' ∨ c = '-' then
        match parseNum 2 rest with
        | none => none
        | some (oh, r1) =>
          match expectChar ':' r1 with
          | none => none
          | some r2 =>
            match parseNum 2 r2 with
            | none => none
            | some (om, r3) =>
              if r3.isEmpty ∧ oh < 24 ∧ om < 60 then
                some (if c = '-' then -((oh * 3600 + om * 60 : Nat) : Int)
                      else ((oh * 3600 + om * 60 : Nat) : Int))
              else none
      else none
    | [] => none

/-- Signal record data for zone version tracking (`encoding/signal.rs`).
`serial` is a `u64` and `entries` a `u32` in the source; the bounds appear
as hypotheses where they matter. -/
structure SignalData where
  serial : Nat
  entries : Nat
  updated : DT
deriving DecidableEq

/-- Encode a signal record as a TXT value string (`SignalData::to_txt`). -/
def SignalData.to_txt (s : SignalData) : Str :=
  "serial=".toList ++ natRepr s.serial
    ++ ";entries=".toList ++ natRepr s.entries
    ++ ";updated=".toList ++ fmtDT s.updated

/-- Rust's `str::parse::<u64>`: optional `+`, one or more digits, no other
characters, value below `2 ^ 64`. -/
def parseU64 (v : Str) : Option Nat :=
  let digits := match v with
    | '+' :: rest => rest
    | _ => v
  if (!digits.isEmpty) && digits.all isDigitB && digitsVal digits < 18446744073709551616 then
    some (digitsVal digits)
  else none

/-- Rust's `str::parse::<u32>`. -/
def parseU32 (v : Str) : Option Nat :=
  let digits := match v with
    | '+' :: rest => rest
    | _ => v
  if (!digits.isEmpty) && digits.all isDigitB && digitsVal digits < 4294967296 then
    some (digitsVal digits)
  else none

/-- Accumulator of `SignalData::from_txt`'s field loop. -/
structure FieldAcc where
  serial : Option Nat
  entries : Option Nat
  updated : Option Str
deriving DecidableEq

/-- One iteration of `from_txt`'s loop over `;`-separated parts: parts
without `=` and unknown keys are ignored, `serial`/`entries` must parse as
integers (an invalid value aborts with an encoding error), and `updated`
keeps the raw string for later parsing. -/
def fieldStep (acc : FieldAcc) (part : Str) : Except SrvError FieldAcc :=
  match splitOnceEq part with
  | none => .ok acc
  | some (key, value) =>
    if key = "serial".toList then
      match parseU64 value with
      | some n => .ok { acc with serial := some n }
      | none => .error (SrvError.Encoding ("invalid serial".toList))
    else if key = "entries".toList then
      match parseU32 value with
      | some n => .ok { acc with entries := some n }
      | none => .error (SrvError.Encoding ("invalid entries".toList))
    else if key = "updated".toList then .ok { acc with updated := some value }
    else .ok acc

/-- The field loop of `from_txt`, short-circuiting on the first error. -/
def foldFields : FieldAcc → List Str → Except SrvError FieldAcc
  | acc, [] => .ok acc
  | acc, p :: ps =>
    match fieldStep acc p with
    | .ok acc2 => foldFields acc2 ps
    | .error e => .error e

/-- Parse a signal record from a TXT value string
(`SignalData::from_txt`): split on `;`, collect the three fields, then
parse the timestamp with the minute-precision format and fall back to
RFC 3339. -/
def SignalData.from_txt (txt : Str) : Except SrvError SignalData :=
  match foldFields ⟨none, none, none⟩ (splitOnChar ';' txt) with
  | .error e => .error e
  | .ok acc =>
    match acc.serial with
    | none => .error (SrvError.Encoding ("missing serial field".toList))
    | some serial =>
      match acc.entries with
      | none => .error (SrvError.Encoding ("missing entries field".toList))
      | some entries =>
        match acc.updated with
        | none => .error (SrvError.Encoding ("missing updated field".toList))
        | some updated_str =>
          match parseMinuteFormat updated_str with
          | some updated => .ok ⟨serial, entries, updated⟩
          | none =>
            match parseRfc3339 updated_str with
            | some updated => .ok ⟨serial, entries, updated⟩
            | none => .error (SrvError.Encoding ("invalid timestamp".toList))

/-- Generate the DNS query name for a zone's signal record. -/
def SignalData.query_name (zone : Str) : Str := "_v.".toList ++ zone

end Srv

namespace Srv

/-!
TXT reputation encoding (`encoding/txt_intel.rs`) and TTL policy
(`authority/ttl_policy.rs`).
-/

/-- Reputation data for an IP address (`txt_intel.rs`).  `extra` embeds the
`BTreeMap<String, String>` as its ascending association list. -/
structure ReputationData where
  cc : Option Str
  asn : Option Str
  org : Option Str
  ports : List Nat
  threat : Option Str
  pattern : Option Str
  hits : Option Nat
  extra : List (Str × Str)
deriving DecidableEq

/-- An empty reputation record (`ReputationData::empty`). -/
def ReputationData.empty : ReputationData := ⟨none, none, none, [], none, none, none, []⟩

/-- Append an optional `key=value` part. -/
def pushKV (key : Str) (v : Option Str) (parts : List Str) : List Str :=
  match v with
  | none => parts
  | some value => parts ++ [key ++ '=' :: value]

/-- Rust's `join(",")` over decimal port numbers. -/
def joinComma : List Str → Str
  | [] => []
  | [x] => x
  | x :: y :: rest => x ++ ',' :: joinComma (y :: rest)

/-- Rust's `join(";")`. -/
def joinSemi : List Str → Str
  | [] => []
  | [x] => x
  | x :: y :: rest => x ++ ';' :: joinSemi (y :: rest)

/-- Encode as simple semicolon-separated `k=v` pairs
(`txt_intel::encode_simple`). -/
def encode_simple (data : ReputationData) : Str :=
  let parts : List Str := []
  let parts := pushKV "cc".toList data.cc parts
  let parts := pushKV "asn".toList data.asn parts
  let parts := pushKV "org".toList data.org parts
  let parts :=
    if data.ports.isEmpty then parts
    else parts ++ ["ports".toList ++ '=' :: joinComma (data.ports.map natRepr)]
  let parts := pushKV "threat".toList data.threat parts
  let parts := pushKV "pattern".toList data.pattern parts
  let parts := pushKV "hits".toList (data.hits.map natRepr) parts
  let parts := parts ++ data.extra.map (fun kv => kv.1 ++ '=' :: kv.2)
  joinSemi parts

/-- Maximum bytes for simple `k=v` encoding before switching to CBOR. -/
def SIMPLE_MAX_BYTES : Nat := 250

/-- Encode reputation data into a TXT record string (`txt_intel::encode`).
The CBOR+Base64 overflow branch (simple encoding longer than 250 bytes) is
not modelled; the zone builder's only call passes a fixed record whose
simple encoding is 14 bytes, so that branch is unreachable in this
development and is represented by an error marker. -/
def txt_intel_encode (data : ReputationData) : Except SrvError Str :=
  let simple := encode_simple data
  if (utf8 simple).length ≤ SIMPLE_MAX_BYTES then .ok simple
  else .error (SrvError.Cbor ("cbor overflow branch not modelled".toList))

/-- TTL constants (`ttl_policy.rs`). -/
def NS_TTL : Nat := 86400

/-- TTL for confirmed blocklist entries. -/
def BLOCKLIST_CONFIRMED_TTL : Nat := 86400

/-- TTL for suspicious blocklist entries. -/
def BLOCKLIST_SUSPICIOUS_TTL : Nat := 3600

/-- TTL for community-reported blocklist entries. -/
def BLOCKLIST_COMMUNITY_TTL : Nat := 43200

/-- TTL for reputation TXT records. -/
def REPUTATION_TTL : Nat := 7200

/-- TTL for signal/version-check records (this is the server-side constant,
30 seconds; the audit crate's expected-TTL constant is 60). -/
def SIGNAL_TTL : Nat := 30

/-- TTL for geo/ASN block records. -/
def GEO_ASN_TTL : Nat := 86400

/-- SOA minimum TTL (negative caching). -/
def SOA_MINIMUM_TTL : Nat := 300

/-- SOA refresh interval. -/
def SOA_REFRESH : Nat := 3600

/-- SOA retry interval. -/
def SOA_RETRY : Nat := 900

/-- SOA expire interval. -/
def SOA_EXPIRE : Nat := 604800

/-- Threat classification for TTL selection (`ttl_policy.rs`). -/
inductive ThreatClass
  | Confirmed
  | Suspicious
  | Community
  | Clean
deriving DecidableEq

/-- Select the appropriate TTL for a threat classification. -/
def ttl_for_threat_class : ThreatClass → Nat
  | .Confirmed => BLOCKLIST_CONFIRMED_TTL
  | .Suspicious => BLOCKLIST_SUSPICIOUS_TTL
  | .Community => BLOCKLIST_COMMUNITY_TTL
  | .Clean => SOA_MINIMUM_TTL

/-!
Threat authorities and the zone builder (`threat_authority.rs`,
`zone_builder.rs`).  A hickory `InMemoryAuthority` is embedded as the list
of its records; `upsert_mut` follows hickory's `RecordSet::insert`
semantics: SOA (and CNAME) are singletons per name, every other record type
accumulates distinct rdata values under one name and an insert with an
already-present rdata only refreshes the TTL.
-/

/-- Record data of the record types the builder produces. -/
inductive RData
  | A (addr : Ipv4)
  | TXT (payload : Str)
  | SOA (mname rname : Str) (serial refresh retry expire minimum : Nat)
deriving DecidableEq

/-- Is this an SOA rdata? -/
def RData.isSOA : RData → Bool
  | .SOA _ _ _ _ _ _ _ => true
  | _ => false

/-- Do two rdata values have the same record type? -/
def RData.sameType : RData → RData → Bool
  | .A _, .A _ => true
  | .TXT _, .TXT _ => true
  | .SOA _ _ _ _ _ _ _, .SOA _ _ _ _ _ _ _ => true
  | _, _ => false

/-- One DNS resource record. -/
structure DnsRecord where
  name : Str
  ttl : Nat
  rdata : RData
deriving DecidableEq

/-- An in-memory authority, as its list of records. -/
abbrev Authority := List DnsRecord

/-- hickory's `InMemoryAuthority::upsert_mut`: SOA replaces the SOA at the
same name; for other types, a record with identical name and rdata only has
its TTL refreshed, and otherwise the record joins the set. -/
def upsert_mut (auth : Authority) (r : DnsRecord) : Authority :=
  if r.rdata.isSOA then
    auth.filter (fun x => !(x.name == r.name && x.rdata.isSOA)) ++ [r]
  else if auth.any (fun x => x.name == r.name && x.rdata == r.rdata) then
    auth.map (fun x => if x.name == r.name && x.rdata == r.rdata then { x with ttl := r.ttl } else x)
  else auth ++ [r]

/-- Zone origins (`config.rs`, `ZoneConfig`). -/
structure ZoneConfig where
  blocklist : Str
  reputation : Str
  geo : Str
  asn : Str
  signal : Str
deriving DecidableEq

/-- The default zone origins. -/
def ZoneConfig.default : ZoneConfig :=
  ⟨"bl.i1.is.".toList, "rep.i1.is.".toList, "geo.i1.is.".toList,
   "asn.i1.is.".toList, "sig.i1.is.".toList⟩

/-- Defense state snapshot (`zone_builder.rs`). -/
structure DefenseSnapshot where
  blocked_ips : List Str
  blocked_countries : List Str
  blocked_countries_outbound : List Str
  blocked_asns : List Str
  whitelisted_ips : List Str
deriving DecidableEq

/-- The all-empty defense snapshot (`Default`). -/
def DefenseSnapshot.default : DefenseSnapshot := ⟨[], [], [], [], []⟩

/-- `threat_authority::create_zone`: an authority holding the synthetic SOA
record of a zone. -/
def create_zone (origin : Str) (serial : Nat) : Authority :=
  upsert_mut []
    { name := origin, ttl := NS_TTL,
      rdata := RData.SOA "ns1.i1.is.".toList "admin.i1.is.".toList
                 serial SOA_REFRESH SOA_RETRY SOA_EXPIRE SOA_MINIMUM_TTL }

/-- `threat_authority::insert_dnsbl_record`: an A record at
`<reverse-ip>.<zone>` pointing at `127.0.0.<code>`, with the TTL of the
code's threat class (`Suspicious` and `Community` keep their class, every
other code is treated as `Confirmed`). -/
def insert_dnsbl_record (auth : Authority) (ip : Ipv4) (code : DnsblCode)
    (zone_origin : Str) : Authority :=
  let ttl := ttl_for_threat_class
    (match code with
     | DnsblCode.Suspicious => ThreatClass.Suspicious
     | DnsblCode.Community => ThreatClass.Community
     | _ => ThreatClass.Confirmed)
  upsert_mut auth
    { name := reverse_ipv4 ip ++ '.' :: zone_origin, ttl := ttl,
      rdata := RData.A code.to_ipv4 }

/-- `threat_authority::insert_txt_record`. -/
def insert_txt_record (auth : Authority) (name : Str) (txt_data : Str)
    (ttl : Nat) : Authority :=
  upsert_mut auth { name := name, ttl := ttl, rdata := RData.TXT txt_data }

/-- `threat_authority::insert_signal_record`: the signal TXT at
`_v.<zone>` with the signal TTL. -/
def insert_signal_record (auth : Authority) (zone_origin : Str)
    (signal_txt : Str) : Authority :=
  upsert_mut auth
    { name := SignalData.query_name zone_origin, ttl := SIGNAL_TTL,
      rdata := RData.TXT signal_txt }

/-- State threaded through `populate_ip_records`. -/
structure IpState where
  blocklist : Authority
  reputation : Authority
  count : Nat
deriving DecidableEq

/-- The fixed reputation payload the zone builder publishes alongside each
blocked IP: empty data with `threat = "blocked"`. -/
def repBlocked : ReputationData :=
  { ReputationData.empty with threat := some "blocked".toList }

/-- One iteration of `populate_ip_records`' loop: strings containing `/`
(CIDRs) are skipped, strings that do not parse as IPv4 are skipped, and an
accepted IP inserts a blocklist A record plus a reputation TXT record and
counts once.  (The `Name::parse` of the reputation name cannot fail for a
well-formed zone origin and is modelled as total.) -/
def ipStep (zones : ZoneConfig) (st : IpState) (ip_str : Str) : IpState :=
  if ip_str.contains '/' then st
  else
    match ipv4Parse ip_str with
    | none => st
    | some ip =>
      let blocklist := insert_dnsbl_record st.blocklist ip DnsblCode.Listed zones.blocklist
      let reputation :=
        match txt_intel_encode repBlocked with
        | .ok txt =>
          insert_txt_record st.reputation
            (reverse_ipv4 ip ++ '.' :: zones.reputation) txt REPUTATION_TTL
        | .error _ => st.reputation
      ⟨blocklist, reputation, st.count + 1⟩

/-- `populate_ip_records`: DNSBL and reputation records from blocked IPs. -/
def populate_ip_records (blocklist reputation : Authority)
    (snapshot : DefenseSnapshot) (zones : ZoneConfig) : IpState :=
  snapshot.blocked_ips.foldl (ipStep zones) ⟨blocklist, reputation, 0⟩

/-- One iteration of the inbound-country loop of `populate_geo_records`. -/
def geoInStep (zones : ZoneConfig) (st : Authority × Nat) (country : Str) :
    Authority × Nat :=
  (upsert_mut st.1
    { name := country ++ '.' :: zones.geo, ttl := GEO_ASN_TTL,
      rdata := RData.TXT "status=blocked;direction=inbound".toList },
   st.2 + 1)

/-- One iteration of the outbound-country loop: a country also present in
the inbound list is tagged `direction=both`, otherwise
`direction=outbound`. -/
def geoOutStep (zones : ZoneConfig) (inbound : List Str)
    (st : Authority × Nat) (country : Str) : Authority × Nat :=
  let direction : Str :=
    if inbound.contains country then "both".toList else "outbound".toList
  (upsert_mut st.1
    { name := country ++ '.' :: zones.geo, ttl := GEO_ASN_TTL,
      rdata := RData.TXT ("status=blocked;direction=".toList ++ direction) },
   st.2 + 1)

/-- `populate_geo_records`: both country loops. -/
def populate_geo_records (geo : Authority) (snapshot : DefenseSnapshot)
    (zones : ZoneConfig) : Authority × Nat :=
  let st1 := snapshot.blocked_countries.foldl (geoInStep zones) (geo, 0)
  snapshot.blocked_countries_outbound.foldl
    (geoOutStep zones snapshot.blocked_countries) st1

/-- `str::strip_prefix("AS").or_else(strip_prefix("as")).unwrap_or(s)`. -/
def stripAS : Str → Str
  | 'A' :: 'S' :: rest => rest
  | 'a' :: 's' :: rest => rest
  | s => s

/-- One iteration of `populate_asn_records`' loop. -/
def asnStep (zones : ZoneConfig) (st : Authority × Nat) (asn_str : Str) :
    Authority × Nat :=
  (upsert_mut st.1
    { name := stripAS asn_str ++ '.' :: zones.asn, ttl := GEO_ASN_TTL,
      rdata := RData.TXT ("status=blocked;asn=".toList ++ asn_str) },
   st.2 + 1)

/-- `populate_asn_records`. -/
def populate_asn_records (asn : Authority) (snapshot : DefenseSnapshot)
    (zones : ZoneConfig) : Authority × Nat :=
  snapshot.blocked_asns.foldl (asnStep zones) (asn, 0)

/-- Result of building all zones (`BuiltZones`). -/
structure BuiltZones where
  blocklist : Authority
  reputation : Authority
  geo : Authority
  asn : Authority
  signal : Authority
  serial : Nat
  entry_count : Nat
deriving DecidableEq

/-- `build_zones`: build all five authorities from a defense snapshot.  The
wall-clock read inside `SignalData::new` is passed in as `now`. -/
def build_zones (snapshot : DefenseSnapshot) (zones : ZoneConfig)
    (serial : Nat) (now : DT) : BuiltZones :=
  let blocklist0 := create_zone zones.blocklist serial
  let reputation0 := create_zone zones.reputation serial
  let geo0 := create_zone zones.geo serial
  let asn0 := create_zone zones.asn serial
  let signal0 := create_zone zones.signal serial
  let ipSt := populate_ip_records blocklist0 reputation0 snapshot zones
  let geoSt := populate_geo_records geo0 snapshot zones
  let asnSt := populate_asn_records asn0 snapshot zones
  let entry_count := ipSt.count + geoSt.2 + asnSt.2
  let signal_data : SignalData := ⟨serial, entry_count, now⟩
  let signal1 := insert_signal_record signal0 zones.signal signal_data.to_txt
  { blocklist := ipSt.blocklist, reputation := ipSt.reputation,
    geo := geoSt.1, asn := asnSt.1, signal := signal1,
    serial := serial, entry_count := entry_count }

/-- The records of an authority that are not the synthetic SOA. -/
def nonSoaRecords (auth : Authority) : List DnsRecord :=
  auth.filter (fun r => !r.rdata.isSOA)

/-- The rdata values an authority holds at a name. -/
def recordsAt (auth : Authority) (name : Str) : List RData :=
  (auth.filter (fun r => r.name == name)).map (fun r => r.rdata)

/-- The number of non-SOA records inserted across the four threat zones
(blocklist, reputation, geo, asn). -/
def totalThreatRecords (z : BuiltZones) : Nat :=
  (nonSoaRecords z.blocklist).length + (nonSoaRecords z.reputation).length
    + (nonSoaRecords z.geo).length + (nonSoaRecords z.asn).length

/-- The IP strings of a blocklist that produce records: not a CIDR and
parseable as IPv4. -/
def acceptedIps (l : List Str) : List Str :=
  l.filter (fun s => !s.contains '/' && (ipv4Parse s).isSome)

end Srv

/-!
## Theorems

General facts about the string primitives, then the claims.
-/

theorem splitOnChar_ne_nil (c : Char) (s : Str) : splitOnChar c s ≠ [] := by
  induction s with
  | nil => simp [splitOnChar]
  | cons x xs ih =>
    simp only [splitOnChar]
    split
    · simp
    · cases h : splitOnChar c xs with
      | nil => simp
      | cons y ys => simp

theorem splitOnChar_not_mem {c : Char} {s : Str} (h : c ∉ s) :
    splitOnChar c s = [s] := by
  induction s with
  | nil => rfl
  | cons x xs ih =>
    simp only [List.mem_cons, not_or] at h
    simp only [splitOnChar, if_neg (Ne.symm h.1), ih h.2]

theorem splitOnChar_append {c : Char} {a : Str} (b : Str) (h : c ∉ a) :
    splitOnChar c (a ++ c :: b) = a :: splitOnChar c b := by
  induction a with
  | nil => simp [splitOnChar]
  | cons x xs ih =>
    simp only [List.mem_cons, not_or] at h
    simp only [List.cons_append, splitOnChar, if_neg (Ne.symm h.1)]
    rw [show (xs.append (c :: b)) = xs ++ c :: b from rfl, ih h.2]

theorem joinChar_splitOnChar (c : Char) (s : Str) :
    joinChar c (splitOnChar c s) = s := by
  induction s with
  | nil => rfl
  | cons x xs ih =>
    simp only [splitOnChar]
    split
    · rename_i hx
      cases h : splitOnChar c xs with
      | nil => exact absurd h (splitOnChar_ne_nil c xs)
      | cons y ys =>
        rw [h] at ih
        simp [joinChar, ← ih, hx]
    · cases h : splitOnChar c xs with
      | nil => exact absurd h (splitOnChar_ne_nil c xs)
      | cons y ys =>
        rw [h] at ih
        cases ys with
        | nil => simp [joinChar, ← ih]
        | cons z zs => simp [joinChar, ← ih]

theorem not_mem_of_mem_splitOnChar {c : Char} {s p : Str}
    (hp : p ∈ splitOnChar c s) : c ∉ p := by
  induction s generalizing p with
  | nil =>
    simp only [splitOnChar, List.mem_singleton] at hp
    simp [hp]
  | cons x xs ih =>
    simp only [splitOnChar] at hp
    split at hp
    · rcases List.mem_cons.mp hp with h | h
      · simp [h]
      · exact ih h
    · rename_i hx
      cases h : splitOnChar c xs with
      | nil => exact absurd h (splitOnChar_ne_nil c xs)
      | cons y ys =>
        rw [h] at hp
        rcases List.mem_cons.mp hp with h2 | h2
        · subst h2
          intro hmem
          rcases List.mem_cons.mp hmem with h3 | h3
          · exact hx h3.symm
          · exact ih (h ▸ List.mem_cons_self y ys) h3
        · exact ih (h ▸ List.mem_cons_of_mem y h2)

theorem natReprFuel_fuel_irrel (n : Nat) : ∀ f1 f2, n < f1 → n < f2 →
    natReprFuel f1 n = natReprFuel f2 n := by
  induction n using Nat.strong_induction_on with
  | _ n ih =>
    intro f1 f2 h1 h2
    match f1, f2 with
    | g1 + 1, g2 + 1 =>
      simp only [natReprFuel]
      split
      · rfl
      · rename_i hge
        have hd : n / 10 < n := Nat.div_lt_self (by omega) (by omega)
        rw [ih (n / 10) hd g1 g2 (by omega) (by omega)]

theorem natRepr_unfold (n : Nat) :
    natRepr n = if n < 10 then [digitChar n] else natRepr (n / 10) ++ [digitChar (n % 10)] := by
  unfold natRepr
  conv_lhs => rw [natReprFuel]
  split
  · rfl
  · rename_i hge
    have hd : n / 10 < n := Nat.div_lt_self (by omega) (by omega)
    rw [natReprFuel_fuel_irrel (n / 10) n (n / 10 + 1) (by omega) (by omega)]

theorem digitChar_isDigit {d : Nat} (h : d < 10) : isDigitB (digitChar d) = true := by
  interval_cases d <;> decide

theorem digitVal_digitChar {d : Nat} (h : d < 10) : digitVal (digitChar d) = d := by
  interval_cases d <;> decide

theorem natRepr_all_digits (n : Nat) : ∀ c ∈ natRepr n, isDigitB c = true := by
  induction n using Nat.strong_induction_on with
  | _ n ih =>
    rw [natRepr_unfold]
    split
    · rename_i h
      intro c hc
      simp only [List.mem_singleton] at hc
      exact hc ▸ digitChar_isDigit h
    · rename_i h
      intro c hc
      rcases List.mem_append.mp hc with h2 | h2
      · exact ih (n / 10) (Nat.div_lt_self (by omega) (by omega)) c h2
      · simp only [List.mem_singleton] at h2
        exact h2 ▸ digitChar_isDigit (Nat.mod_lt n (by omega))

theorem natRepr_ne_nil (n : Nat) : natRepr n ≠ [] := by
  rw [natRepr_unfold]
  split <;> simp

theorem digitsVal_append_single (xs : Str) (c : Char) :
    digitsVal (xs ++ [c]) = 10 * digitsVal xs + digitVal c := by
  simp [digitsVal, List.foldl_append]

theorem digitsVal_natRepr (n : Nat) : digitsVal (natRepr n) = n := by
  induction n using Nat.strong_induction_on with
  | _ n ih =>
    rw [natRepr_unfold]
    split
    · rename_i h
      simp [digitsVal, digitVal_digitChar h]
    · rename_i h
      rw [digitsVal_append_single, ih (n / 10) (Nat.div_lt_self (by omega) (by omega)),
        digitVal_digitChar (Nat.mod_lt n (by omega))]
      omega

theorem natRepr_head_ne_zero {n : Nat} (h : 1 ≤ n) :
    (natRepr n).headD ' ' ≠ '0' := by
  induction n using Nat.strong_induction_on with
  | _ n ih =>
    rw [natRepr_unfold]
    split
    · rename_i h10
      interval_cases n <;> decide
    · rename_i h10
      have hne := natRepr_ne_nil (n / 10)
      cases hr : natRepr (n / 10) with
      | nil => exact absurd hr hne
      | cons y ys =>
        have := ih (n / 10) (Nat.div_lt_self (by omega) (by omega)) (by omega)
        rw [hr] at this
        simpa using this

theorem natRepr_length_le {k : Nat} : ∀ {n : Nat}, 1 ≤ k → n < 10 ^ k →
    (natRepr n).length ≤ k := by
  induction k using Nat.strong_induction_on with
  | _ k ihk =>
    intro n hk hn
    rw [natRepr_unfold]
    split
    · simpa using hk
    · rename_i h10
      have hk2 : 2 ≤ k := by
        rcases Nat.lt_or_ge k 2 with h | h
        · interval_cases k
          omega
        · exact h
      have hpow : 10 ^ k = 10 ^ (k - 1) * 10 := by
        rw [← pow_succ]
        congr 1
        omega
      have hlt : n / 10 < 10 ^ (k - 1) :=
        (Nat.div_lt_iff_lt_mul (by omega)).mpr (by omega)
      have hrec := ihk (k - 1) (by omega) (n := n / 10) (by omega) hlt
      simp only [List.length_append, List.length_singleton]
      omega

theorem char_eq_of_toNat_eq {a b : Char} (h : a.toNat = b.toNat) : a = b :=
  Char.ext (UInt32.ext h)

theorem digitChar_toNat : ∀ k, k ≤ 9 → (digitChar k).toNat = 48 + k := by decide

theorem digitChar_digitVal {c : Char} (h : isDigitB c = true) :
    digitChar (digitVal c) = c := by
  have hb := h
  simp only [isDigitB, Bool.and_eq_true, decide_eq_true_eq] at h
  apply char_eq_of_toNat_eq
  have hk : digitVal c ≤ 9 := by
    simp only [digitVal]
    omega
  rw [digitChar_toNat _ hk]
  simp only [digitVal]
  omega

theorem digitVal_lt_ten {c : Char} (h : isDigitB c = true) : digitVal c < 10 := by
  simp only [isDigitB, Bool.and_eq_true, decide_eq_true_eq] at h
  simp only [digitVal]
  omega

theorem digitsVal_foldl_ge (rest : Str) (acc : Nat) :
    acc ≤ rest.foldl (fun a c => 10 * a + digitVal c) acc := by
  induction rest generalizing acc with
  | nil => simp
  | cons c cs ih =>
    simp only [List.foldl_cons]
    calc acc ≤ 10 * acc + digitVal c := by omega
    _ ≤ _ := ih _

theorem digitsVal_pos {s : Str} (hne : s ≠ []) (hdig : ∀ c ∈ s, isDigitB c = true)
    (hhead : s.headD ' ' ≠ '0') : 1 ≤ digitsVal s := by
  cases s with
  | nil => exact absurd rfl hne
  | cons c cs =>
    have hc : isDigitB c = true := hdig c (List.mem_cons_self c cs)
    simp only [isDigitB, Bool.and_eq_true, decide_eq_true_eq] at hc
    have hc48 : c.toNat ≠ 48 := by
      intro h48
      apply hhead
      simp only [List.headD_cons]
      exact char_eq_of_toNat_eq (by rw [h48]; rfl)
    have h1 : 1 ≤ digitVal c := by
      simp only [digitVal]
      omega
    calc 1 ≤ digitVal c := h1
    _ ≤ digitsVal (c :: cs) := by
      simpa [digitsVal, digitVal] using digitsVal_foldl_ge cs (digitVal c)

theorem natRepr_digitsVal {s : Str} (hne : s ≠ []) (hdig : ∀ c ∈ s, isDigitB c = true)
    (hlead : s.length = 1 ∨ s.headD ' ' ≠ '0') : natRepr (digitsVal s) = s := by
  induction s using List.reverseRecOn with
  | nil => exact absurd rfl hne
  | append_singleton xs c ih =>
    have hc : isDigitB c = true := hdig c (List.mem_append.mpr (Or.inr (List.mem_singleton_self c)))
    cases xs with
    | nil =>
      have : digitsVal [c] = digitVal c := by simp [digitsVal]
      rw [List.nil_append, this, natRepr_unfold, if_pos (digitVal_lt_ten hc)]
      rw [digitChar_digitVal hc]
    | cons x xs2 =>
      have hx : x ≠ '0' := by
        rcases hlead with h1 | h2
        · simp at h1
        · simpa using h2
      have hdig2 : ∀ d ∈ x :: xs2, isDigitB d = true := fun d hd =>
        hdig d (List.mem_append.mpr (Or.inl hd))
      have hih : natRepr (digitsVal (x :: xs2)) = x :: xs2 :=
        ih (by simp) hdig2 (Or.inr (by simpa using hx))
      have hpos : 1 ≤ digitsVal (x :: xs2) :=
        digitsVal_pos (by simp) hdig2 (by simpa using hx)
      have hd10 : digitVal c < 10 := digitVal_lt_ten hc
      rw [digitsVal_append_single, natRepr_unfold,
        if_neg (by omega : ¬10 * digitsVal (x :: xs2) + digitVal c < 10)]
      have hdiv : (10 * digitsVal (x :: xs2) + digitVal c) / 10 = digitsVal (x :: xs2) := by
        omega
      have hmod : (10 * digitsVal (x :: xs2) + digitVal c) % 10 = digitVal c := by
        omega
      rw [hdiv, hmod, hih, digitChar_digitVal hc]

theorem dropSuffix_append (a z : Str) : dropSuffix (a ++ z) z = some a := by
  unfold dropSuffix
  rw [if_pos (by rw [List.isSuffixOf_iff_suffix]; exact ⟨a, rfl⟩)]
  congr 1
  have h1 : (a ++ z).length - z.length = a.length := by
    simp
  rw [h1, List.take_left]

theorem dropSuffix_eq_some {s z t : Str} (h : dropSuffix s z = some t) :
    s = t ++ z := by
  unfold dropSuffix at h
  split at h
  · rename_i hsuf
    rw [List.isSuffixOf_iff_suffix] at hsuf
    obtain ⟨u, rfl⟩ := hsuf
    have h1 : (u ++ z).length - z.length = u.length := by simp
    rw [h1, List.take_left] at h
    obtain rfl := Option.some.inj h
    rfl
  · exact absurd h (by simp)

theorem not_digit_dot : isDigitB '.' = false := by decide

theorem dot_not_mem_natRepr (n : Nat) : '.' ∉ natRepr n := by
  intro h
  have := natRepr_all_digits n '.' h
  simp [isDigitB] at this

namespace Srv

theorem okOctet_iff {s : Str} : okOctet s = true ↔
    s ≠ [] ∧ (∀ c ∈ s, isDigitB c = true) ∧
      (s.length = 1 ∨ s.headD ' ' ≠ '0') ∧ digitsVal s ≤ 255 := by
  simp only [okOctet, Bool.and_eq_true, Bool.or_eq_true, Bool.not_eq_true',
    List.all_eq_true, beq_iff_eq, bne_iff_ne, decide_eq_true_eq, ne_eq]
  simp only [List.isEmpty_eq_false_iff_exists_mem]
  constructor
  · rintro ⟨⟨⟨hne, hdig⟩, hlead⟩, hval⟩
    exact ⟨by rintro rfl; simp at hne, hdig, hlead, hval⟩
  · rintro ⟨hne, hdig, hlead, hval⟩
    refine ⟨⟨⟨?_, hdig⟩, hlead⟩, hval⟩
    cases s with
    | nil => exact absurd rfl hne
    | cons c cs => exact ⟨c, List.mem_cons_self c cs⟩

theorem okOctet_natRepr {n : Nat} (h : n ≤ 255) : okOctet (natRepr n) = true := by
  rw [okOctet_iff]
  refine ⟨natRepr_ne_nil n, natRepr_all_digits n, ?_, by rw [digitsVal_natRepr]; exact h⟩
  rcases Nat.lt_or_ge n 10 with h10 | h10
  · left
    rw [natRepr_unfold, if_pos h10]
    rfl
  · right
    exact natRepr_head_ne_zero (by omega)

theorem natRepr_of_okOctet {s : Str} (h : okOctet s = true) :
    natRepr (digitsVal s) = s := by
  rw [okOctet_iff] at h
  exact natRepr_digitsVal h.1 h.2.1 h.2.2.1

theorem ipv4Parse_canonical {s : Str} {ip : Ipv4} (h : ipv4Parse s = some ip) :
    s = natRepr ip.o1 ++ '.' :: natRepr ip.o2 ++ '.' :: natRepr ip.o3 ++ '.' :: natRepr ip.o4 := by
  unfold ipv4Parse at h
  split at h
  · rename_i a b c d heq
    split at h
    · rename_i hok
      obtain rfl := Option.some.inj h
      simp only [Bool.and_eq_true] at hok
      obtain ⟨⟨⟨ha, hb⟩, hc⟩, hd⟩ := hok
      have hs := joinChar_splitOnChar '.' s
      rw [heq] at hs
      simp only [joinChar] at hs
      rw [← hs, natRepr_of_okOctet ha, natRepr_of_okOctet hb,
        natRepr_of_okOctet hc, natRepr_of_okOctet hd]
      simp
    · exact absurd h (by simp)
  · exact absurd h (by simp)

theorem splitOnChar_reverse_ipv4 (ip : Ipv4) :
    splitOnChar '.' (reverse_ipv4 ip) =
      [natRepr ip.o4, natRepr ip.o3, natRepr ip.o2, natRepr ip.o1] := by
  unfold reverse_ipv4
  simp only [List.cons_append, List.append_assoc]
  rw [splitOnChar_append _ (dot_not_mem_natRepr ip.o4),
    splitOnChar_append _ (dot_not_mem_natRepr ip.o3),
    splitOnChar_append _ (dot_not_mem_natRepr ip.o2),
    splitOnChar_not_mem (dot_not_mem_natRepr ip.o1)]

end Srv

namespace Srv

theorem dropSuffix_dot (a : Str) (zone : Str) :
    (dropSuffix (a ++ '.' :: zone) zone).bind (fun s => dropSuffix s ['.']) = some a := by
  have h1 : a ++ '.' :: zone = (a ++ ['.']) ++ zone := by simp
  rw [h1, dropSuffix_append, Option.some_bind, dropSuffix_append]

end Srv

/-- C5: for every IPv4 address string accepted by the address parser and
every zone string, building the DNSBL query name succeeds and parsing it
back under the same zone returns the original address string. -/
theorem c5_reverse_ipv4_round_trip (ip zone : Str) (addr : Srv.Ipv4)
    (h : Srv.ipv4Parse ip = some addr) :
    ∃ q, Srv.build_query_name ip zone = .ok q ∧
      Srv.parse_query_name q zone = .ok ip := by
  refine ⟨Srv.reverse_ipv4 addr ++ '.' :: zone, ?_, ?_⟩
  · unfold Srv.build_query_name
    rw [h]
  · unfold Srv.parse_query_name
    rw [Srv.dropSuffix_dot]
    simp only [Srv.splitOnChar_reverse_ipv4]
    rw [Srv.ipv4Parse_canonical h]
    simp

/-- Witness for C5 at `1.2.3.4` under `bl.i1.is.`. -/
theorem c5_reverse_ipv4_round_trip_witness :
    ∃ q, Srv.build_query_name "1.2.3.4".toList "bl.i1.is.".toList = .ok q ∧
      Srv.parse_query_name q "bl.i1.is.".toList = .ok "1.2.3.4".toList :=
  c5_reverse_ipv4_round_trip "1.2.3.4".toList "bl.i1.is.".toList ⟨1, 2, 3, 4⟩ (by decide)

theorem list_eq_four {α : Type} {l : List α} (h : l.length = 4) :
    ∃ a b c d, l = [a, b, c, d] := by
  cases l with
  | nil => simp at h
  | cons a t1 =>
    cases t1 with
    | nil => simp at h
    | cons b t2 =>
      cases t2 with
      | nil => simp at h
      | cons c t3 =>
        cases t3 with
        | nil => simp at h
        | cons d t4 =>
          cases t4 with
          | nil => exact ⟨a, b, c, d, rfl⟩
          | cons e t5 => simp at h

namespace Srv

theorem parse_qn_none {q zone : Str}
    (hb : (dropSuffix q zone).bind (fun s => dropSuffix s ['.']) = none) :
    parse_query_name q zone =
      .error (SrvError.Encoding ("query not under zone".toList ++ q)) := by
  unfold parse_query_name
  rw [hb]

theorem parse_qn_four {q zone rev p1 p2 p3 p4 : Str}
    (hb : (dropSuffix q zone).bind (fun s => dropSuffix s ['.']) = some rev)
    (h4 : splitOnChar '.' rev = [p1, p2, p3, p4]) :
    parse_query_name q zone =
      .ok (p4 ++ '.' :: (p3 ++ '.' :: (p2 ++ '.' :: p1))) := by
  unfold parse_query_name
  rw [hb]
  simp [h4]

theorem parse_qn_notfour {q zone rev : Str}
    (hb : (dropSuffix q zone).bind (fun s => dropSuffix s ['.']) = some rev)
    (hlen : (splitOnChar '.' rev).length ≠ 4) :
    parse_query_name q zone =
      .error (SrvError.Encoding ("expected 4 octets in reversed IP".toList)) := by
  unfold parse_query_name
  rw [hb]
  simp [hlen]

end Srv

/-- C6 (amended): `parse_query_name` accepts exactly the names of the form
`l1.l2.l3.l4.<zone>` with four dot-free labels, returning the labels
reversed; the labels are not validated as IPv4 octets.  Every rejection is
a typed `SrvError::Encoding` error. -/
theorem c6_parse_query_name_strict (q zone : Str) :
    (∀ r, Srv.parse_query_name q zone = .ok r ↔
      ∃ p1 p2 p3 p4 : Str, '.' ∉ p1 ∧ '.' ∉ p2 ∧ '.' ∉ p3 ∧ '.' ∉ p4 ∧
        q = p1 ++ '.' :: (p2 ++ '.' :: (p3 ++ '.' :: (p4 ++ '.' :: zone))) ∧
        r = p4 ++ '.' :: (p3 ++ '.' :: (p2 ++ '.' :: p1)))
    ∧ (∀ e, Srv.parse_query_name q zone = .error e →
        ∃ m, e = Srv.SrvError.Encoding m) := by
  constructor
  · intro r
    constructor
    · intro h
      cases hbind : (dropSuffix q zone).bind (fun s => dropSuffix s ['.']) with
      | none =>
        rw [Srv.parse_qn_none hbind] at h
        exact absurd h (by simp)
      | some rev =>
        by_cases hlen : (splitOnChar '.' rev).length = 4
        · obtain ⟨p1, p2, p3, p4, hoct⟩ := list_eq_four hlen
          rw [Srv.parse_qn_four hbind hoct] at h
          obtain ⟨s, hs1, hs2⟩ := Option.bind_eq_some.mp hbind
          have hq1 : q = s ++ zone := dropSuffix_eq_some hs1
          have hq2 : s = rev ++ ['.'] := dropSuffix_eq_some hs2
          have hrev := joinChar_splitOnChar '.' rev
          rw [hoct] at hrev
          simp only [joinChar] at hrev
          refine ⟨p1, p2, p3, p4,
            not_mem_of_mem_splitOnChar (by rw [hoct]; simp),
            not_mem_of_mem_splitOnChar (by rw [hoct]; simp),
            not_mem_of_mem_splitOnChar (by rw [hoct]; simp),
            not_mem_of_mem_splitOnChar (by rw [hoct]; simp), ?_, ?_⟩
          · rw [hq1, hq2, ← hrev]
            simp
          · exact (Except.ok.inj h).symm
        · rw [Srv.parse_qn_notfour hbind hlen] at h
          exact absurd h (by simp)
    · rintro ⟨p1, p2, p3, p4, hd1, hd2, hd3, hd4, hq, hr⟩
      have hq2 : q = (p1 ++ '.' :: (p2 ++ '.' :: (p3 ++ '.' :: p4))) ++ '.' :: zone := by
        rw [hq]; simp
      have hbind := Srv.dropSuffix_dot (p1 ++ '.' :: (p2 ++ '.' :: (p3 ++ '.' :: p4))) zone
      rw [← hq2] at hbind
      have hsplit : splitOnChar '.' (p1 ++ '.' :: (p2 ++ '.' :: (p3 ++ '.' :: p4)))
          = [p1, p2, p3, p4] := by
        rw [splitOnChar_append _ hd1, splitOnChar_append _ hd2, splitOnChar_append _ hd3,
          splitOnChar_not_mem hd4]
      rw [Srv.parse_qn_four hbind hsplit, hr]
  · intro e h
    cases hbind : (dropSuffix q zone).bind (fun s => dropSuffix s ['.']) with
    | none =>
      rw [Srv.parse_qn_none hbind] at h
      exact ⟨_, (Except.error.inj h).symm⟩
    | some rev =>
      by_cases hlen : (splitOnChar '.' rev).length = 4
      · obtain ⟨p1, p2, p3, p4, hoct⟩ := list_eq_four hlen
        rw [Srv.parse_qn_four hbind hoct] at h
        exact absurd h (by simp)
      · rw [Srv.parse_qn_notfour hbind hlen] at h
        exact ⟨_, (Except.error.inj h).symm⟩

/-- Witness for the amended C6: the characterization applied to the name
`a.b.c.d.bl.i1.is.` under zone `bl.i1.is.`, whose labels are not digits. -/
theorem c6_parse_query_name_strict_witness :
    Srv.parse_query_name "a.b.c.d.bl.i1.is.".toList "bl.i1.is.".toList = .ok "d.c.b.a".toList :=
  ((c6_parse_query_name_strict "a.b.c.d.bl.i1.is.".toList "bl.i1.is.".toList).1
    "d.c.b.a".toList).mpr
    ⟨"a".toList, "b".toList, "c".toList, "d".toList,
      by decide, by decide, by decide, by decide, by decide, by decide⟩

/-- C6 counterexample: a query name whose labels are not valid IPv4 octets
is accepted by `parse_query_name` rather than rejected, and its result does
not parse as an IPv4 address, so the parser is not a strict inverse of the
builder on valid addresses. -/
theorem c6_counterexample :
    Srv.parse_query_name "a.b.c.d.bl.i1.is.".toList "bl.i1.is.".toList
        = .ok "d.c.b.a".toList ∧
      Srv.ipv4Parse "d.c.b.a".toList = none := by
  constructor
  · decide
  · decide

/-- C8 (code evaluation at the failing input): hashes shorter than 12 hex
characters are not rejected — both producers silently emit the whole short
hash as the label, with no error path in their types. -/
theorem c8_short_hash_not_rejected :
    Audit.binary_dns_name "abc".toList = "abc.bin.i1.is.".toList ∧
      Audit.cert_dns_name "ab".toList = "ab.ca.i1.is.".toList := by
  constructor
  · decide
  · decide

/-- C9: against an expected value with expected TTL 60, the verdict is `Ok`
for a matching value within drift 10, `StaleCache` for a matching value
beyond drift 10, `Tampered` for a differing value within drift 10,
`Compromised` for a differing value beyond drift 10, and `NotPublished`
whenever the record is absent.  (The verdict function is modelled from the
specification; see `Audit.evaluateObservation`.) -/
theorem c9_verdict_matrix (expected v : Str) (ttl : Nat) :
    (Audit.evaluateObservation expected 60 (some (v, ttl))).verdict =
      (if v = expected then
        (if Audit.ttlDrift ttl 60 ≤ 10 then Audit.Verdict.Ok else Audit.Verdict.StaleCache)
       else
        (if Audit.ttlDrift ttl 60 ≤ 10 then Audit.Verdict.Tampered
         else Audit.Verdict.Compromised))
    ∧ (Audit.evaluateObservation expected 60 none).verdict = Audit.Verdict.NotPublished := by
  refine ⟨?_, rfl⟩
  simp only [Audit.evaluateObservation, Audit.MAX_TTL_DRIFT]
  by_cases hv : v = expected
  · simp [hv]
  · simp [hv]

theorem sortStrs_perm {l l2 : List Str} (h : l.Perm l2) :
    Audit.sortStrs l = Audit.sortStrs l2 :=
  List.eq_of_perm_of_sorted
    ((List.perm_insertionSort _ l).trans (h.trans (List.perm_insertionSort _ l2).symm))
    (List.sorted_insertionSort _ l) (List.sorted_insertionSort _ l2)

/-- C2: permuting the `binaries` and `root_certs` lists of a snapshot in
any way leaves the trust digest unchanged. -/
theorem c2_digest_perm_invariant (snap : Audit.AuditSnapshot)
    (bs : List Audit.BinaryInfo) (cs : List Audit.RootCertInfo)
    (hb : snap.binaries.Perm bs) (hc : snap.root_certs.Perm cs) :
    Audit.compute_trust_digest { snap with binaries := bs, root_certs := cs }
      = Audit.compute_trust_digest snap := by
  unfold Audit.compute_trust_digest Audit.digestMaterial
  simp only
  rw [sortStrs_perm ((hb.map (fun b => b.sha256)).symm),
    sortStrs_perm ((hc.map (fun c => c.fingerprint)).symm)]

/-- Witness for C2 at a two-binary, one-certificate snapshot with the
binary list reversed. -/
theorem c2_digest_perm_invariant_witness :
    Audit.compute_trust_digest
        { node_id := "n".toList,
          binaries := [⟨"b1".toList⟩, ⟨"b2".toList⟩],
          root_certs := [⟨"c1".toList⟩] }
      = Audit.compute_trust_digest
        { node_id := "n".toList,
          binaries := [⟨"b2".toList⟩, ⟨"b1".toList⟩],
          root_certs := [⟨"c1".toList⟩] } :=
  c2_digest_perm_invariant
    { node_id := "n".toList,
      binaries := [⟨"b2".toList⟩, ⟨"b1".toList⟩],
      root_certs := [⟨"c1".toList⟩] }
    [⟨"b1".toList⟩, ⟨"b2".toList⟩] [⟨"c1".toList⟩] (by decide) (by decide)

theorem utf8_append (a b : Str) : utf8 (a ++ b) = utf8 a ++ utf8 b := by
  simp [utf8]

theorem utf8_cons (c : Char) (s : Str) : utf8 (c :: s) = utf8Char c ++ utf8 s := by
  simp [utf8]

theorem utf8_flatten (l : List Str) : utf8 l.flatten = (l.map utf8).flatten := by
  induction l with
  | nil => rfl
  | cons x xs ih => simp [utf8_append, ih]

theorem sha256_length (m : List Nat) : (Sha256.sha256 m).length = 32 := by
  simp [Sha256.sha256, Sha256.wordBytes]

theorem hexEncode_length (bs : List Nat) : (Sha256.hexEncode bs).length = 2 * bs.length := by
  induction bs with
  | nil => rfl
  | cons b rest ih =>
    simp only [Sha256.hexEncode, List.flatMap_cons] at ih ⊢
    simp [Sha256.hexByte, ih]
    omega

theorem hexDigit_mem : ∀ n, n < 16 → Sha256.hexDigit n ∈ "0123456789abcdef".toList := by
  decide

theorem hexEncode_mem {bs : List Nat} {c : Char} (h : c ∈ Sha256.hexEncode bs) :
    c ∈ "0123456789abcdef".toList := by
  simp only [Sha256.hexEncode, List.mem_flatMap] at h
  obtain ⟨b, _, hc⟩ := h
  simp only [Sha256.hexByte, List.mem_cons, List.mem_singleton] at hc
  rcases hc with rfl | rfl | h
  · exact hexDigit_mem _ (Nat.mod_lt _ (by omega))
  · exact hexDigit_mem _ (Nat.mod_lt _ (by omega))
  · simp at h

/-- C3 (amended): the trust digest is the 64-lowercase-hex SHA-256 of the
byte string `node_id | count | sorted-hashes | count | sorted-fingerprints`
— the binary section ends with a `|` delimiter, but unlike the binary
section the certificate section ends the string without a trailing `|`. -/
theorem c3_digest_layout (snap : Audit.AuditSnapshot) :
    Audit.compute_trust_digest snap =
      Sha256.sha256Hex (utf8 (snap.node_id ++ '|' ::
        (natRepr (Audit.sortStrs (snap.binaries.map (fun b => b.sha256))).length ++ '|' ::
          ((Audit.sortStrs (snap.binaries.map (fun b => b.sha256))).flatten ++ '|' ::
            (natRepr (Audit.sortStrs (snap.root_certs.map (fun c => c.fingerprint))).length
              ++ '|' ::
              (Audit.sortStrs (snap.root_certs.map (fun c => c.fingerprint))).flatten)))))
    ∧ (Audit.compute_trust_digest snap).length = 64
    ∧ ∀ c ∈ Audit.compute_trust_digest snap, c ∈ "0123456789abcdef".toList := by
  refine ⟨?_, ?_, ?_⟩
  · unfold Audit.compute_trust_digest Audit.digestMaterial
    simp only [utf8_append, utf8_cons, utf8_flatten]
    have hbar : utf8Char '|' = [124] := by decide
    simp [hbar]
  · unfold Audit.compute_trust_digest
    simp [Sha256.sha256Hex, hexEncode_length, sha256_length]
  · intro c hc
    unfold Audit.compute_trust_digest at hc
    exact hexEncode_mem hc

/-- C3 counterexample: on the snapshot with node id `n` and no binaries or
certificates, the source's digest differs from the digest of the byte
string the claim describes (which would append one more `|` after the
certificate section). -/
theorem c3_counterexample :
    Audit.compute_trust_digest ⟨"n".toList, [], []⟩
      ≠ Audit.trust_digest_spec ⟨"n".toList, [], []⟩ := by
  decide

namespace Srv

theorem ipStep_skip {zones : ZoneConfig} {st : IpState} {s : Str}
    (hparse : ipv4Parse s = none) : ipStep zones st s = st := by
  unfold ipStep
  split
  · rfl
  · simp [hparse]

theorem ipStep_count_step (zones : ZoneConfig) (st : IpState) (s : Str) :
    (ipStep zones st s).count =
      st.count + (if (!s.contains '/' && (ipv4Parse s).isSome) = true then 1 else 0) := by
  unfold ipStep
  by_cases h1 : '/' ∈ s
  · simp [h1]
  · cases hp : ipv4Parse s with
    | none => simp [h1, hp]
    | some ip => simp [h1, hp]

theorem populate_ip_count (zones : ZoneConfig) (l : List Str) (st : IpState) :
    (l.foldl (ipStep zones) st).count = st.count + (acceptedIps l).length := by
  induction l generalizing st with
  | nil => simp [acceptedIps]
  | cons s xs ih =>
    rw [List.foldl_cons, ih, ipStep_count_step]
    unfold acceptedIps
    rw [List.filter_cons]
    by_cases hc : (!s.contains '/' && (ipv4Parse s).isSome) = true
    · rw [if_pos hc, if_pos hc]
      simp only [List.length_cons]
      omega
    · rw [if_neg hc, if_neg hc]
      simp

theorem foldl_count_snd {α β : Type} (step : β × Nat → α → β × Nat)
    (hstep : ∀ st x, (step st x).2 = st.2 + 1) (l : List α) (st : β × Nat) :
    (l.foldl step st).2 = st.2 + l.length := by
  induction l generalizing st with
  | nil => simp
  | cons x xs ih =>
    rw [List.foldl_cons, ih, hstep]
    simp
    omega

end Srv

/-- C4 (amended): `build_zones` skips every CIDR entry (and every entry
that does not parse as IPv4) without error and without counting it;
`entry_count` counts one per accepted blocklist IP, per inbound country,
per outbound country and per ASN — the reputation TXT record inserted
alongside each accepted IP is not counted.  On the S5 snapshot the count
is 2 + 2 + 2 + 2 = 8. -/
theorem c4_entry_count_amended :
    (∀ (snapshot : Srv.DefenseSnapshot) (zones : Srv.ZoneConfig) (serial : Nat) (now : Srv.DT),
      (Srv.build_zones snapshot zones serial now).entry_count =
        (Srv.acceptedIps snapshot.blocked_ips).length
          + snapshot.blocked_countries.length
          + snapshot.blocked_countries_outbound.length
          + snapshot.blocked_asns.length)
    ∧ (Srv.build_zones
        { blocked_ips := ["1.2.3.4".toList, "10.0.0.1".toList, "10.0.0.0/24".toList],
          blocked_countries := ["cn".toList, "ru".toList],
          blocked_countries_outbound := ["cn".toList, "kz".toList],
          blocked_asns := ["AS12345".toList, "AS67890".toList],
          whitelisted_ips := [] }
        Srv.ZoneConfig.default 1 ⟨2026, 2, 17, 14, 30, 0⟩).entry_count = 8 := by
  constructor
  · intro snapshot zones serial now
    unfold Srv.build_zones Srv.populate_ip_records Srv.populate_geo_records
      Srv.populate_asn_records
    simp only
    rw [Srv.populate_ip_count,
      Srv.foldl_count_snd _ (fun st x => rfl),
      Srv.foldl_count_snd _ (fun st x => rfl),
      Srv.foldl_count_snd _ (fun st x => rfl)]
    simp
    omega
  · decide

/-- C4 counterexample: on the S5 snapshot the builder reports
`entry_count = 8`, but it inserts 10 non-SOA records into the threat zones
(each accepted IP also gets a reputation TXT record), so `entry_count`
does not equal the total number of non-SOA threat records inserted. -/
theorem c4_counterexample :
    (Srv.build_zones
        { blocked_ips := ["1.2.3.4".toList, "10.0.0.1".toList, "10.0.0.0/24".toList],
          blocked_countries := ["cn".toList, "ru".toList],
          blocked_countries_outbound := ["cn".toList, "kz".toList],
          blocked_asns := ["AS12345".toList, "AS67890".toList],
          whitelisted_ips := [] }
        Srv.ZoneConfig.default 1 ⟨2026, 2, 17, 14, 30, 0⟩).entry_count = 8
    ∧ Srv.totalThreatRecords
        (Srv.build_zones
          { blocked_ips := ["1.2.3.4".toList, "10.0.0.1".toList, "10.0.0.0/24".toList],
            blocked_countries := ["cn".toList, "ru".toList],
            blocked_countries_outbound := ["cn".toList, "kz".toList],
            blocked_asns := ["AS12345".toList, "AS67890".toList],
            whitelisted_ips := [] }
          Srv.ZoneConfig.default 1 ⟨2026, 2, 17, 14, 30, 0⟩) = 10 := by
  constructor
  · decide
  · decide

/-- C1 (code evaluation at the failing input): with `cn` blocked in both
directions, the geo zone holds two TXT records at `cn.geo.i1.is.` — the
inbound pass's `direction=inbound` record and the outbound pass's
`direction=both` record — rather than exactly one record. -/
theorem c1_dual_direction_two_records :
    Srv.recordsAt
        (Srv.build_zones
          { Srv.DefenseSnapshot.default with
              blocked_countries := ["cn".toList],
              blocked_countries_outbound := ["cn".toList] }
          Srv.ZoneConfig.default 1 ⟨2026, 2, 17, 14, 30, 0⟩).geo
        "cn.geo.i1.is.".toList
      = [Srv.RData.TXT "status=blocked;direction=inbound".toList,
         Srv.RData.TXT "status=blocked;direction=both".toList] := by
  decide

/-- C10: a `blocked_ips` entry that is not a CIDR and does not parse as an
IPv4 address is silently skipped: removing it from the list leaves the
whole build result — every zone, the serial and the entry count —
unchanged, and no error is possible since the entry is dropped before any
fallible step. -/
theorem c10_invalid_ip_skipped (snap : Srv.DefenseSnapshot) (zones : Srv.ZoneConfig)
    (serial : Nat) (now : Srv.DT) (l1 l2 : List Str) (s : Str)
    (hparse : Srv.ipv4Parse s = none) :
    Srv.build_zones { snap with blocked_ips := l1 ++ s :: l2 } zones serial now
      = Srv.build_zones { snap with blocked_ips := l1 ++ l2 } zones serial now := by
  have hfold : ∀ init : Srv.IpState,
      (l1 ++ s :: l2).foldl (Srv.ipStep zones) init
        = (l1 ++ l2).foldl (Srv.ipStep zones) init := by
    intro init
    rw [List.foldl_append, List.foldl_cons, Srv.ipStep_skip hparse, ← List.foldl_append]
  unfold Srv.build_zones Srv.populate_ip_records Srv.populate_geo_records
    Srv.populate_asn_records
  simp only [hfold]

/-- Witness for C10: dropping the non-IP entry `not-an-ip` does not change
the build. -/
theorem c10_invalid_ip_skipped_witness :
    Srv.build_zones
        { Srv.DefenseSnapshot.default with
            blocked_ips := ["1.2.3.4".toList] ++ "not-an-ip".toList :: [] }
        Srv.ZoneConfig.default 1 ⟨2026, 2, 17, 14, 30, 0⟩
      = Srv.build_zones
        { Srv.DefenseSnapshot.default with blocked_ips := ["1.2.3.4".toList] ++ [] }
        Srv.ZoneConfig.default 1 ⟨2026, 2, 17, 14, 30, 0⟩ :=
  c10_invalid_ip_skipped Srv.DefenseSnapshot.default Srv.ZoneConfig.default 1
    ⟨2026, 2, 17, 14, 30, 0⟩ ["1.2.3.4".toList] [] "not-an-ip".toList (by decide)

/-- Witness for the amended C3: the hex-alphabet membership applied to the
leading character of a concretely computed digest. -/
theorem c3_digest_layout_witness :
    '6' ∈ "0123456789abcdef".toList :=
  (c3_digest_layout ⟨"n".toList, [], []⟩).2.2 '6' (by decide)

theorem not_mem_of_all_digits {s : Str} {c0 : Char}
    (hdig : ∀ c ∈ s, isDigitB c = true) (hc0 : isDigitB c0 = false) : c0 ∉ s := by
  intro hmem
  rw [hdig c0 hmem] at hc0
  exact Bool.noConfusion hc0

/-- The shape of a non-digit continuation for the digit scanners. -/
def NonDigitHead (rest : Str) : Prop :=
  rest = [] ∨ ∃ r rs, rest = r :: rs ∧ isDigitB r = false

theorem takeDigitsMax_spec {ds : Str} : ∀ {w : Nat} {rest : Str},
    (∀ c ∈ ds, isDigitB c = true) → ds.length ≤ w → NonDigitHead rest →
    takeDigitsMax w (ds ++ rest) = (ds, rest) := by
  induction ds with
  | nil =>
    intro w rest _ _ hrest
    rcases hrest with rfl | ⟨r, rs, rfl, hr⟩
    · cases w <;> rfl
    · cases w with
      | zero => rfl
      | succ w2 =>
        simp only [List.nil_append, takeDigitsMax, hr]
        rfl
  | cons d ds ih =>
    intro w rest hdig hlen hrest
    cases w with
    | zero => simp at hlen
    | succ w2 =>
      have hd : isDigitB d = true := hdig d (List.mem_cons_self d ds)
      simp only [List.cons_append, takeDigitsMax, hd, if_pos, List.append_eq]
      rw [ih (fun c hc => hdig c (List.mem_cons_of_mem d hc)) (by simpa using hlen) hrest]

theorem takeDigitsAll_spec {ds : Str} {rest : Str}
    (hdig : ∀ c ∈ ds, isDigitB c = true) (hrest : NonDigitHead rest) :
    takeDigitsAll (ds ++ rest) = (ds, rest) := by
  induction ds with
  | nil =>
    rcases hrest with rfl | ⟨r, rs, rfl, hr⟩
    · rfl
    · simp only [List.nil_append, takeDigitsAll, hr]
      rfl
  | cons d ds ih =>
    have hd : isDigitB d = true := hdig d (List.mem_cons_self d ds)
    simp only [List.cons_append, takeDigitsAll, hd, if_pos, List.append_eq]
    rw [ih (fun c hc => hdig c (List.mem_cons_of_mem d hc))]

theorem parseNum_spec {w : Nat} {ds rest : Str}
    (hdig : ∀ c ∈ ds, isDigitB c = true) (hne : ds ≠ []) (hlen : ds.length ≤ w)
    (hrest : NonDigitHead rest) :
    Srv.parseNum w (ds ++ rest) = some (digitsVal ds, rest) := by
  unfold Srv.parseNum
  rw [takeDigitsMax_spec hdig hlen hrest]
  simp [hne]

theorem digitsVal_replicate_zero (k : Nat) (s : Str) :
    digitsVal (List.replicate k '0' ++ s) = digitsVal s := by
  induction k with
  | zero => rfl
  | succ k2 ih =>
    simp only [List.replicate_succ, List.cons_append, digitsVal, List.foldl_cons]
    have h0 : 10 * 0 + digitVal '0' = 0 := by decide
    rw [h0]
    exact ih

theorem pad4_digits (n : Nat) : ∀ c ∈ Srv.pad4 n, isDigitB c = true := by
  intro c hc
  unfold Srv.pad4 at hc
  rcases List.mem_append.mp hc with h | h
  · rw [List.eq_of_mem_replicate h]
    decide
  · exact natRepr_all_digits n c h

theorem pad4_ne_nil (n : Nat) : Srv.pad4 n ≠ [] := by
  unfold Srv.pad4
  intro h
  rcases List.append_eq_nil.mp h with ⟨_, h2⟩
  exact natRepr_ne_nil n h2

theorem digitsVal_pad4 (n : Nat) : digitsVal (Srv.pad4 n) = n := by
  unfold Srv.pad4
  rw [digitsVal_replicate_zero, digitsVal_natRepr]

theorem pad4_length_le {n : Nat} (h : n ≤ 9999) : (Srv.pad4 n).length ≤ 4 := by
  unfold Srv.pad4
  have := natRepr_length_le (k := 4) (n := n) (by omega) (by omega)
  simp only [List.length_append, List.length_replicate]
  omega

theorem pad2_digits (n : Nat) : ∀ c ∈ Srv.pad2 n, isDigitB c = true := by
  intro c hc
  unfold Srv.pad2 at hc
  split at hc
  · rcases List.mem_cons.mp hc with rfl | h
    · decide
    · exact natRepr_all_digits n c h
  · exact natRepr_all_digits n c hc

theorem pad2_ne_nil (n : Nat) : Srv.pad2 n ≠ [] := by
  unfold Srv.pad2
  split
  · simp
  · exact natRepr_ne_nil n

theorem digitsVal_pad2 (n : Nat) : digitsVal (Srv.pad2 n) = n := by
  unfold Srv.pad2
  split
  · have : ('0' :: natRepr n) = List.replicate 1 '0' ++ natRepr n := rfl
    rw [this, digitsVal_replicate_zero, digitsVal_natRepr]
  · exact digitsVal_natRepr n

theorem pad2_length_le {n : Nat} (h : n ≤ 99) : (Srv.pad2 n).length ≤ 2 := by
  unfold Srv.pad2
  have h2 := natRepr_length_le (k := 2) (n := n) (by omega) (by omega)
  have h1 := natRepr_length_le (k := 1) (n := n)
  split
  · rename_i h10
    simp only [List.length_cons]
    have := h1 (by omega) (by simpa using h10)
    omega
  · exact h2

theorem parseYearNum_fmtYear {y : Int} {rest : Str}
    (hy1 : -262144 ≤ y) (hy2 : y ≤ 262143)
    (hrest : ∃ r rs, rest = r :: rs ∧ isDigitB r = false) :
    Srv.parseYearNum (Srv.fmtYear y ++ rest) = some (y, rest) := by
  obtain ⟨r, rs, rfl, hr⟩ := hrest
  unfold Srv.fmtYear
  split
  · rename_i hy
    obtain ⟨c, cs, hpad⟩ : ∃ c cs, Srv.pad4 y.toNat = c :: cs := by
      cases hp : Srv.pad4 y.toNat with
      | nil => exact absurd hp (pad4_ne_nil _)
      | cons c cs => exact ⟨c, cs, rfl⟩
    have hcdig : isDigitB c = true := pad4_digits y.toNat c (by rw [hpad]; simp)
    have hcm : c ≠ '-' := by
      intro h
      rw [h] at hcdig
      exact absurd hcdig (by decide)
    have hcp : c ≠ '+' := by
      intro h
      rw [h] at hcdig
      exact absurd hcdig (by decide)
    rw [hpad]
    unfold Srv.parseYearNum
    simp only [List.cons_append]
    split
    · rename_i heq
      exact absurd (List.cons.inj heq).1 hcm
    · rename_i heq
      exact absurd (List.cons.inj heq).1 hcp
    · have hspec : Srv.parseNum 4 ((c :: cs) ++ r :: rs) = some (digitsVal (c :: cs), r :: rs) := by
        rw [← hpad]
        exact parseNum_spec (pad4_digits _) (pad4_ne_nil _)
          (pad4_length_le (by omega)) (Or.inr ⟨r, rs, rfl, hr⟩)
      simp only [List.cons_append] at hspec
      have hcast : ((y.toNat : Int)) = y := by omega
      rw [hspec, ← hpad]
      simp [digitsVal_pad4, hcast]
  · rename_i hy
    split
    · rename_i hneg
      unfold Srv.parseYearNum
      simp only [List.cons_append]
      rw [takeDigitsAll_spec (pad4_digits _) (Or.inr ⟨r, rs, rfl, hr⟩)]
      simp only []
      rw [if_neg (by simp [pad4_ne_nil y.natAbs])]
      rw [digitsVal_pad4]
      have hcast : -((y.natAbs : Int)) = y := by omega
      rw [hcast]
    · rename_i hneg
      unfold Srv.parseYearNum
      simp only [List.cons_append]
      rw [takeDigitsAll_spec (pad4_digits _) (Or.inr ⟨r, rs, rfl, hr⟩)]
      simp only []
      rw [if_neg (by simp [pad4_ne_nil y.toNat])]
      rw [digitsVal_pad4]
      have hcast : ((y.toNat : Int)) = y := by omega
      rw [hcast]

theorem fmtDT_decomp (t : Srv.DT) :
    Srv.fmtDT t = Srv.fmtYear t.year ++ '-' ::
      (Srv.pad2 t.month ++ '-' ::
        (Srv.pad2 t.day ++ 'T' ::
          (Srv.pad2 t.hour ++ ':' ::
            (Srv.pad2 t.minute ++ ['Z'])))) := by
  unfold Srv.fmtDT
  simp

theorem parseNum2_pad2 {n : Nat} (hn : n ≤ 99) {c : Char} (hc : isDigitB c = false)
    (cs : Str) :
    Srv.parseNum 2 (Srv.pad2 n ++ c :: cs) = some (n, c :: cs) := by
  rw [parseNum_spec (pad2_digits n) (pad2_ne_nil n) (pad2_length_le hn)
    (Or.inr ⟨c, cs, rfl, hc⟩), digitsVal_pad2]

theorem daysInMonth_le (y : Int) (m : Nat) : Srv.daysInMonth y m ≤ 31 := by
  unfold Srv.daysInMonth
  split
  · split <;> omega
  · split <;> omega

theorem parseMinuteFormat_fmtDT {t : Srv.DT} (h : Srv.DTValid t) :
    Srv.parseMinuteFormat (Srv.fmtDT t) = some (Srv.truncToMinute t) := by
  obtain ⟨hy1, hy2, hm1, hm2, hd1, hd2, hh, hmin, hsec⟩ := h
  unfold Srv.parseMinuteFormat
  rw [fmtDT_decomp,
    parseYearNum_fmtYear hy1 hy2 ⟨'-', _, rfl, by decide⟩]
  simp only [Srv.expectChar, if_pos]
  rw [parseNum2_pad2 (by omega) (by decide)]
  simp only [Srv.expectChar, if_pos]
  rw [parseNum2_pad2 (by have := daysInMonth_le t.year t.month; omega) (by decide)]
  simp only [Srv.expectChar, if_pos]
  rw [parseNum2_pad2 (by omega) (by decide)]
  simp only [Srv.expectChar, if_pos]
  rw [parseNum2_pad2 (by omega) (by decide)]
  simp only [Srv.expectChar, if_pos]
  simp only [List.isEmpty_nil, if_pos]
  unfold Srv.mkValidDT
  rw [if_pos ?valid]
  case valid =>
    exact ⟨hy1, hy2, hm1, hm2, hd1, hd2, hh, hmin, show (0 : Nat) < 60 by decide⟩
  rfl

theorem splitOnceEq_append {k v : Str} (h : '=' ∉ k) :
    splitOnceEq (k ++ '=' :: v) = some (k, v) := by
  induction k with
  | nil => simp [splitOnceEq]
  | cons c cs ih =>
    simp only [List.mem_cons, not_or] at h
    simp only [List.cons_append, splitOnceEq, if_neg (Ne.symm h.1), List.append_eq]
    rw [ih h.2]

theorem parseU64_natRepr {n : Nat} (h : n < 18446744073709551616) :
    Srv.parseU64 (natRepr n) = some n := by
  unfold Srv.parseU64
  split
  · rename_i rest heq
    have := natRepr_all_digits n '+' (by rw [heq]; exact List.mem_cons_self _ _)
    exact absurd this (by decide)
  · rw [if_pos, digitsVal_natRepr]
    simp only [Bool.and_eq_true, Bool.not_eq_true', decide_eq_true_eq, List.all_eq_true]
    refine ⟨⟨?_, natRepr_all_digits n⟩, by rw [digitsVal_natRepr]; exact h⟩
    cases hr : natRepr n with
    | nil => exact absurd hr (natRepr_ne_nil n)
    | cons c cs => rfl

theorem parseU32_natRepr {n : Nat} (h : n < 4294967296) :
    Srv.parseU32 (natRepr n) = some n := by
  unfold Srv.parseU32
  split
  · rename_i rest heq
    have := natRepr_all_digits n '+' (by rw [heq]; exact List.mem_cons_self _ _)
    exact absurd this (by decide)
  · rw [if_pos, digitsVal_natRepr]
    simp only [Bool.and_eq_true, Bool.not_eq_true', decide_eq_true_eq, List.all_eq_true]
    refine ⟨⟨?_, natRepr_all_digits n⟩, by rw [digitsVal_natRepr]; exact h⟩
    cases hr : natRepr n with
    | nil => exact absurd hr (natRepr_ne_nil n)
    | cons c cs => rfl

theorem semi_not_mem_fmtYear (y : Int) : ';' ∉ Srv.fmtYear y := by
  unfold Srv.fmtYear
  split
  · exact not_mem_of_all_digits (pad4_digits _) (by decide)
  · split
    · intro hmem
      rcases List.mem_cons.mp hmem with h | h
      · exact absurd h (by decide)
      · exact not_mem_of_all_digits (pad4_digits _) (by decide) h
    · intro hmem
      rcases List.mem_cons.mp hmem with h | h
      · exact absurd h (by decide)
      · exact not_mem_of_all_digits (pad4_digits _) (by decide) h

theorem semi_not_mem_fmtDT (t : Srv.DT) : ';' ∉ Srv.fmtDT t := by
  rw [fmtDT_decomp]
  intro hmem
  rcases List.mem_append.mp hmem with h | h
  · exact semi_not_mem_fmtYear t.year h
  rcases List.mem_cons.mp h with h | h
  · exact absurd h (by decide)
  rcases List.mem_append.mp h with h | h
  · exact not_mem_of_all_digits (pad2_digits _) (by decide) h
  rcases List.mem_cons.mp h with h | h
  · exact absurd h (by decide)
  rcases List.mem_append.mp h with h | h
  · exact not_mem_of_all_digits (pad2_digits _) (by decide) h
  rcases List.mem_cons.mp h with h | h
  · exact absurd h (by decide)
  rcases List.mem_append.mp h with h | h
  · exact not_mem_of_all_digits (pad2_digits _) (by decide) h
  rcases List.mem_cons.mp h with h | h
  · exact absurd h (by decide)
  rcases List.mem_append.mp h with h | h
  · exact not_mem_of_all_digits (pad2_digits _) (by decide) h
  rcases List.mem_cons.mp h with h | h
  · exact absurd h (by decide)
  · simp at h

theorem splitOnChar_to_txt (s : Srv.SignalData) :
    splitOnChar ';' s.to_txt =
      ["serial=".toList ++ natRepr s.serial,
       "entries=".toList ++ natRepr s.entries,
       "updated=".toList ++ Srv.fmtDT s.updated] := by
  have hform : s.to_txt = ("serial=".toList ++ natRepr s.serial) ++ ';' ::
      (("entries=".toList ++ natRepr s.entries) ++ ';' ::
        ("updated=".toList ++ Srv.fmtDT s.updated)) := by
    unfold Srv.SignalData.to_txt
    rw [show ";entries=".toList = ';' :: "entries=".toList from rfl,
      show ";updated=".toList = ';' :: "updated=".toList from rfl]
    simp
  rw [hform]
  rw [splitOnChar_append _ ?na, splitOnChar_append _ ?nb, splitOnChar_not_mem ?nc]
  case na =>
    intro hmem
    rcases List.mem_append.mp hmem with h | h
    · exact absurd h (by decide)
    · exact not_mem_of_all_digits (natRepr_all_digits _) (by decide) h
  case nb =>
    intro hmem
    rcases List.mem_append.mp hmem with h | h
    · exact absurd h (by decide)
    · exact not_mem_of_all_digits (natRepr_all_digits _) (by decide) h
  case nc =>
    intro hmem
    rcases List.mem_append.mp hmem with h | h
    · exact absurd h (by decide)
    · exact semi_not_mem_fmtDT s.updated h

theorem fieldStep_serial (acc : Srv.FieldAcc) (n : Nat)
    (hn : n < 18446744073709551616) :
    Srv.fieldStep acc ("serial=".toList ++ natRepr n)
      = .ok { acc with serial := some n } := by
  unfold Srv.fieldStep
  rw [show "serial=".toList ++ natRepr n = "serial".toList ++ '=' :: natRepr n from rfl,
    splitOnceEq_append (by decide)]
  simp only [if_pos rfl]
  rw [parseU64_natRepr hn]
  simp

theorem fieldStep_entries (acc : Srv.FieldAcc) (n : Nat) (hn : n < 4294967296) :
    Srv.fieldStep acc ("entries=".toList ++ natRepr n)
      = .ok { acc with entries := some n } := by
  unfold Srv.fieldStep
  rw [show "entries=".toList ++ natRepr n = "entries".toList ++ '=' :: natRepr n from rfl,
    splitOnceEq_append (by decide)]
  simp only [if_neg (by decide : ¬("entries".toList = "serial".toList)), if_pos rfl]
  rw [parseU32_natRepr hn]
  simp

theorem fieldStep_updated (acc : Srv.FieldAcc) (v : Str) :
    Srv.fieldStep acc ("updated=".toList ++ v)
      = .ok { acc with updated := some v } := by
  unfold Srv.fieldStep
  rw [show "updated=".toList ++ v = "updated".toList ++ '=' :: v from rfl,
    splitOnceEq_append (by decide)]
  simp only [if_neg (by decide : ¬("updated".toList = "serial".toList)),
    if_neg (by decide : ¬("updated".toList = "entries".toList)), if_pos rfl]
  simp

/-- C7: parsing a rendered signal record succeeds and recovers the record
up to truncating the timestamp to minute precision; the serial and entry
count round-trip exactly.  The hypotheses are the `u64`/`u32` ranges of the
source's field types and validity of the timestamp. -/
theorem c7_signal_round_trip (s : Srv.SignalData)
    (h1 : s.serial < 18446744073709551616) (h2 : s.entries < 4294967296)
    (h3 : Srv.DTValid s.updated) :
    Srv.SignalData.from_txt s.to_txt =
      .ok { s with updated := Srv.truncToMinute s.updated } := by
  unfold Srv.SignalData.from_txt
  rw [splitOnChar_to_txt]
  have e1 := fieldStep_serial ⟨none, none, none⟩ s.serial h1
  have e2 := fieldStep_entries ⟨some s.serial, none, none⟩ s.entries h2
  have e3 := fieldStep_updated ⟨some s.serial, some s.entries, none⟩ (Srv.fmtDT s.updated)
  simp only [Srv.foldFields, e1, e2, e3]
  rw [parseMinuteFormat_fmtDT h3]

/-- Witness for C7 at a concrete signal record whose timestamp carries 45
seconds: the parse drops the seconds and keeps serial and entries. -/
theorem c7_signal_round_trip_witness :
    Srv.SignalData.from_txt
        (Srv.SignalData.to_txt ⟨2026021701, 4523, ⟨2026, 2, 17, 14, 30, 45⟩⟩) =
      .ok { (⟨2026021701, 4523, ⟨2026, 2, 17, 14, 30, 45⟩⟩ : Srv.SignalData) with
              updated := Srv.truncToMinute ⟨2026, 2, 17, 14, 30, 45⟩ } :=
  c7_signal_round_trip ⟨2026021701, 4523, ⟨2026, 2, 17, 14, 30, 45⟩⟩
    (by decide) (by decide) (by decide)
